import Mathlib

/-!
Verification of the tyro/dcargs CLI core against its specification.

The development shallowly embeds `src/dcargs/_cli.py` (the `cli()` entry
point, which is the only engine file present in `src/`) together with
models of its collaborators.  The collaborators — the constructor
registry, the type resolver / schema-tree builder, the front-end
argument parser, and the reconstructor (`_calling.call_from_args`) —
are not part of `src/`; following the specification they are modelled
here from the spec's own words (each such definition is marked
`Modelled from the spec:`).  Python runtime values are embedded as the
mutual inductive `PyVal`; JSON encoding/decoding (Python's
`json.dumps` / `json.loads`, used by the custom-primitive test) is
modelled on an exact fragment: integers, strings of printable ASCII
characters that need no escaping, booleans, null, arrays, and objects.
-/

namespace Dcargs

mutual
/-- Embedding of the Python runtime values the engine manipulates:
`None`, booleans, integers, strings, lists, and dictionaries
(dictionaries as ordered association lists, keys being arbitrary
values as in Python). -/
inductive PyVal where
  | pnone : PyVal
  | pbool (b : Bool) : PyVal
  | pint (n : Int) : PyVal
  | pstr (s : String) : PyVal
  | plist (xs : PyList) : PyVal
  | pdict (es : PyDict) : PyVal
deriving DecidableEq, Repr

inductive PyList where
  | nil : PyList
  | cons (hd : PyVal) (tl : PyList) : PyList
deriving DecidableEq, Repr

inductive PyDict where
  | nil : PyDict
  | cons (k : PyVal) (v : PyVal) (tl : PyDict) : PyDict
deriving DecidableEq, Repr
end

/-- `isinstance(x, dict)` on the embedded values. -/
def PyVal.isDict : PyVal → Bool
  | .pdict _ => true
  | _ => false

/-- Lookup of a string key in an embedded dictionary (Python `d[name]`
returning `None`-as-absence when the key is missing). -/
def PyDict.get : PyDict → String → Option PyVal
  | .nil, _ => none
  | .cons k v t, name => if k = .pstr name then some v else t.get name

/-- Attribute/field access used for instances (`getattr(out, name)`);
instances of structural types are embedded as string-keyed dicts. -/
def PyVal.attr : PyVal → String → Option PyVal
  | .pdict es, name => es.get name
  | _, _ => none

/-! ### Decimal digits

Helpers for the decimal rendering and parsing of integers, which the
JSON model and the built-in `int` constructor share. -/

/-- The character for a single decimal digit. -/
def digitChar : Nat → Char
  | 0 => '0' | 1 => '1' | 2 => '2' | 3 => '3' | 4 => '4'
  | 5 => '5' | 6 => '6' | 7 => '7' | 8 => '8' | _ => '9'

/-- Numeric value of a digit character. -/
def charVal (c : Char) : Nat := c.toNat - 48

/-- Little-endian digit list of a natural number (fuelled so that it
reduces in the kernel; `natDigitsRev (n+1) n` is always fully
evaluated). -/
def natDigitsRev : Nat → Nat → List Nat
  | 0, _ => []
  | f + 1, n => if n = 0 then [] else (n % 10) :: natDigitsRev f (n / 10)

/-- Decimal rendering of a natural number, most significant digit
first (Python `str(n)` for `n ≥ 0`). -/
def natChars (n : Nat) : List Char :=
  if n = 0 then ['0'] else ((natDigitsRev (n + 1) n).reverse.map digitChar)

/-- Decimal rendering of an integer (Python `str(n)`). -/
def intChars (n : Int) : List Char :=
  if n < 0 then '-' :: natChars n.natAbs else natChars n.toNat

/-- Decode a digit string, most significant digit first. -/
def decodeDigits (cs : List Char) : Nat :=
  cs.foldl (fun a c => 10 * a + charVal c) 0

/-- Greedily parse a run of decimal digits from the front of the
input, returning its value and the rest. -/
def parseDigits (cs : List Char) : Option (Nat × List Char) :=
  let ds := cs.takeWhile Char.isDigit
  if ds.isEmpty then none else some (decodeDigits ds, cs.dropWhile Char.isDigit)

/-! ### Sizes and parser fuel -/

mutual
/-- Recursion depth needed to parse the encoding of a value; used as
the fuel bound in the JSON round-trip lemmas. -/
def PyVal.need : PyVal → Nat
  | .pnone | .pbool _ | .pint _ | .pstr _ => 1
  | .plist xs => 1 + xs.need
  | .pdict es => 1 + es.need
/-- Fuel needed for the item list of an array (also for its
continuation after the first element). -/
def PyList.need : PyList → Nat
  | .nil => 1
  | .cons h t => 1 + max h.need t.need
/-- Fuel needed for the entry list of an object (also for its
continuation after the first entry). -/
def PyDict.need : PyDict → Nat
  | .nil => 1
  | .cons _ v t => 1 + max (v.need + 1) t.need
end

/-! ### JSON model

`json.dumps` / `json.loads` are Python standard-library collaborators
(used by `json_constructor_spec` in
`src/tests/test_py311_generated/test_custom_primitive_generated.py`);
they are modelled here on an exact fragment. -/

/-- Opening brace character (written via its code point). -/
def lbrace : Char := Char.ofNat 123

/-- Closing brace character (written via its code point). -/
def rbrace : Char := Char.ofNat 125

/-- Characters the modelled serializer emits verbatim inside string
literals: printable ASCII needing no JSON escape. -/
def jsonSafe (c : Char) : Bool :=
  32 ≤ c.toNat && c.toNat ≤ 126 && c ≠ '"' && c ≠ '\\'

/-- Encoding of a string literal, in the modelled no-escape fragment;
`none` when the string would need escaping. -/
def dumpStr (s : String) : Option (List Char) :=
  if s.data.all jsonSafe then some ('"' :: s.data ++ ['"']) else none

/-- Modelled from the spec: encoding of a Python dict key by
`json.dumps`, which coerces non-string scalar keys to strings
(`{1: 2}` serializes as the object with key `"1"`) and rejects
container keys with a `TypeError`. -/
def dumpKey : PyVal → Option (List Char)
  | .pstr s => dumpStr s
  | .pint n => some ('"' :: intChars n ++ ['"'])
  | .pbool true => some ('"' :: "true".data ++ ['"'])
  | .pbool false => some ('"' :: "false".data ++ ['"'])
  | .pnone => some ('"' :: "null".data ++ ['"'])
  | _ => none

mutual
/-- Modelled from the spec: `json.dumps` (the encoder behind
`str_from_instance`), restricted to the fragment of values this
development models; `none` stands for the places where the real
encoder raises or needs escapes outside the fragment.  Default
separators `", "` and `": "` are used, as in Python. -/
def dumpVal : PyVal → Option (List Char)
  | .pnone => some "null".data
  | .pbool true => some "true".data
  | .pbool false => some "false".data
  | .pint n => some (intChars n)
  | .pstr s => dumpStr s
  | .plist xs => (dumpItems xs).map (fun cs => '[' :: cs)
  | .pdict es => (dumpEntries es).map (fun cs => lbrace :: cs)
/-- Item list of an array, including the closing bracket. -/
def dumpItems : PyList → Option (List Char)
  | .nil => some [']']
  | .cons h t =>
    match dumpVal h, dumpItemsRest t with
    | some hc, some tc => some (hc ++ tc)
    | _, _ => none
/-- Continuation of an array after an item: either the closing
bracket or a `", "` separator and further items. -/
def dumpItemsRest : PyList → Option (List Char)
  | .nil => some [']']
  | .cons h t =>
    match dumpVal h, dumpItemsRest t with
    | some hc, some tc => some (',' :: ' ' :: hc ++ tc)
    | _, _ => none
/-- Entry list of an object, including the closing brace. -/
def dumpEntries : PyDict → Option (List Char)
  | .nil => some [rbrace]
  | .cons k v t =>
    match dumpKey k, dumpVal v, dumpEntriesRest t with
    | some kc, some vc, some tc => some (kc ++ ':' :: ' ' :: vc ++ tc)
    | _, _, _ => none
/-- Continuation of an object after an entry. -/
def dumpEntriesRest : PyDict → Option (List Char)
  | .nil => some [rbrace]
  | .cons k v t =>
    match dumpKey k, dumpVal v, dumpEntriesRest t with
    | some kc, some vc, some tc => some (',' :: ' ' :: kc ++ ':' :: ' ' :: vc ++ tc)
    | _, _, _ => none
end

/-- Body of a string literal after the opening quote, in the modelled
no-escape fragment. -/
def parseStrRest (cs : List Char) : Option (String × List Char) :=
  let body := cs.takeWhile (fun c => c ≠ '"')
  match cs.dropWhile (fun c => c ≠ '"') with
  | '"' :: r => some (String.mk body, r)
  | _ => none

mutual
/-- Modelled from the spec: the decoder behind `instance_from_str`
(Python `json.loads`), as a fuelled recursive-descent parser over the
modelled fragment; returns the decoded value and the unconsumed
suffix. -/
def parseVal : Nat → List Char → Option (PyVal × List Char)
  | 0, _ => none
  | f + 1, input =>
    match input with
    | [] => none
    | c :: r =>
      if c = 'n' then
        match r with
        | 'u' :: 'l' :: 'l' :: r' => some (.pnone, r')
        | _ => none
      else if c = 't' then
        match r with
        | 'r' :: 'u' :: 'e' :: r' => some (.pbool true, r')
        | _ => none
      else if c = 'f' then
        match r with
        | 'a' :: 'l' :: 's' :: 'e' :: r' => some (.pbool false, r')
        | _ => none
      else if c = '"' then (parseStrRest r).map (fun p => (.pstr p.1, p.2))
      else if c = '[' then (parseItems f r).map (fun p => (.plist p.1, p.2))
      else if c = lbrace then (parseEntries f r).map (fun p => (.pdict p.1, p.2))
      else if c = '-' then (parseDigits r).map (fun p => (.pint (-(p.1 : Int)), p.2))
      else if c.isDigit then (parseDigits (c :: r)).map (fun p => (.pint (p.1 : Int), p.2))
      else none
/-- Item list of an array (after the opening bracket). -/
def parseItems : Nat → List Char → Option (PyList × List Char)
  | 0, _ => none
  | f + 1, input =>
    match input with
    | [] => none
    | c :: r =>
      if c = ']' then some (.nil, r)
      else
        match parseVal f (c :: r) with
        | some (v, r2) =>
          match parseItemsRest f r2 with
          | some (t, r3) => some (.cons v t, r3)
          | none => none
        | none => none
/-- Continuation of an array after an item. -/
def parseItemsRest : Nat → List Char → Option (PyList × List Char)
  | 0, _ => none
  | f + 1, input =>
    match input with
    | [] => none
    | c :: r =>
      if c = ']' then some (.nil, r)
      else if c = ',' then
        match r with
        | ' ' :: r1 =>
          match parseVal f r1 with
          | some (v, r2) =>
            match parseItemsRest f r2 with
            | some (t, r3) => some (.cons v t, r3)
            | none => none
          | none => none
        | _ => none
      else none
/-- Entry list of an object (after the opening brace). -/
def parseEntries : Nat → List Char → Option (PyDict × List Char)
  | 0, _ => none
  | f + 1, input =>
    match input with
    | [] => none
    | c :: r =>
      if c = rbrace then some (.nil, r)
      else
        match parseEntry f (c :: r) with
        | some (k, v, r2) =>
          match parseEntriesRest f r2 with
          | some (t, r3) => some (.cons k v t, r3)
          | none => none
        | none => none
/-- One `"key": value` entry of an object. -/
def parseEntry : Nat → List Char → Option (PyVal × PyVal × List Char)
  | 0, _ => none
  | f + 1, input =>
    match input with
    | '"' :: r =>
      match parseStrRest r with
      | some (s, r1) =>
        match r1 with
        | ':' :: ' ' :: r2 =>
          match parseVal f r2 with
          | some (v, r3) => some (.pstr s, v, r3)
          | none => none
        | _ => none
      | none => none
    | _ => none
/-- Continuation of an object after an entry. -/
def parseEntriesRest : Nat → List Char → Option (PyDict × List Char)
  | 0, _ => none
  | f + 1, input =>
    match input with
    | [] => none
    | c :: r =>
      if c = rbrace then some (.nil, r)
      else if c = ',' then
        match r with
        | ' ' :: r1 =>
          match parseEntry f r1 with
          | some (k, v, r2) =>
            match parseEntriesRest f r2 with
            | some (t, r3) => some (.cons k v t, r3)
            | none => none
          | none => none
        | _ => none
      else none
end

/-- Modelled from the spec: `json.loads` on the modelled fragment —
parse the whole string as one JSON value, rejecting trailing input. -/
def json_loads (s : String) : Option PyVal :=
  match parseVal (s.length + 1) s.data with
  | some (v, []) => some v
  | _ => none

/-- Modelled from the spec: `json.dumps` on the modelled fragment. -/
def json_dumps (v : PyVal) : Option String :=
  (dumpVal v).map String.mk

/-! ### Round-trip lemmas for the JSON model -/


/-- Whether the first character of a suffix cannot be mistaken for the
continuation of a decimal number. -/
def headNotDigit : List Char → Bool
  | [] => true
  | c :: _ => !c.isDigit

theorem takeWhile_append_not (p : Char → Bool) :
    ∀ (l rest : List Char), l.all p = true →
      (∀ c, rest.head? = some c → p c = false) →
      (l ++ rest).takeWhile p = l ∧ (l ++ rest).dropWhile p = rest := by
  intro l
  induction l with
  | nil =>
    intro rest _ hr
    cases rest with
    | nil => simp
    | cons c r => simp [List.takeWhile, List.dropWhile, hr c rfl]
  | cons a l ih =>
    intro rest hl hr
    simp only [List.all_cons, Bool.and_eq_true] at hl
    have := ih rest hl.2 hr
    simp [List.takeWhile, List.dropWhile, hl.1, this.1, this.2]

theorem digitChar_isDigit (d : Nat) : (digitChar d).isDigit = true := by
  rcases d with _|_|_|_|_|_|_|_|_|d <;> simp [digitChar]

theorem charVal_digitChar (d : Nat) (h : d < 10) : charVal (digitChar d) = d := by
  interval_cases d <;> decide

theorem natDigitsRev_eq_digits : ∀ f n, n ≤ f → natDigitsRev f n = Nat.digits 10 n := by
  intro f
  induction f with
  | zero => intro n h; interval_cases n; simp [natDigitsRev]
  | succ f ih =>
    intro n h
    by_cases hn : n = 0
    · subst hn; simp [natDigitsRev]
    · rw [natDigitsRev, if_neg hn, Nat.digits_def' (by norm_num : 1 < 10) (Nat.pos_of_ne_zero hn)]
      congr 1
      exact ih (n / 10) (by omega)

theorem natChars_eq (n : Nat) (hn : n ≠ 0) :
    natChars n = ((Nat.digits 10 n).reverse.map digitChar) := by
  rw [natChars, if_neg hn, natDigitsRev_eq_digits (n + 1) n (by omega)]

theorem natChars_all_digit (n : Nat) : (natChars n).all Char.isDigit = true := by
  by_cases hn : n = 0
  · subst hn; decide
  · rw [natChars_eq n hn]
    simp only [List.all_eq_true, List.mem_map, List.mem_reverse]
    rintro c ⟨d, _, rfl⟩
    exact digitChar_isDigit d

theorem natChars_ne_nil (n : Nat) : natChars n ≠ [] := by
  by_cases hn : n = 0
  · subst hn; decide
  · rw [natChars_eq n hn]
    simp [Nat.digits_ne_nil_iff_ne_zero, hn]

theorem foldr_digits_decode : ∀ (l : List Nat), (∀ d ∈ l, d < 10) →
    List.foldr (fun d a => 10 * a + charVal (digitChar d)) 0 l = Nat.ofDigits 10 l := by
  intro l
  induction l with
  | nil => simp [Nat.ofDigits_nil]
  | cons d l ih =>
    intro h
    simp only [List.foldr_cons, Nat.ofDigits_cons]
    rw [ih (fun x hx => h x (List.mem_cons_of_mem _ hx)), charVal_digitChar d (h d (List.mem_cons_self _ _))]
    omega

theorem decodeDigits_natChars (n : Nat) : decodeDigits (natChars n) = n := by
  by_cases hn : n = 0
  · subst hn; decide
  · rw [natChars_eq n hn, decodeDigits, List.foldl_map, List.foldl_reverse]
    have hlt : ∀ d ∈ Nat.digits 10 n, d < 10 := fun d hd => Nat.digits_lt_base (by norm_num) hd
    have h2 := foldr_digits_decode (Nat.digits 10 n) hlt
    exact h2.trans (by exact_mod_cast Nat.ofDigits_digits 10 n)

theorem parseDigits_natChars (n : Nat) (rest : List Char) (h : headNotDigit rest = true) :
    parseDigits (natChars n ++ rest) = some (n, rest) := by
  have hr : ∀ c, rest.head? = some c → Char.isDigit c = false := by
    intro c hc
    cases rest with
    | nil => simp at hc
    | cons a r =>
      simp only [List.head?_cons, Option.some.injEq] at hc
      subst hc
      simpa [headNotDigit] using h
  have hsplit := takeWhile_append_not Char.isDigit (natChars n) rest (natChars_all_digit n) hr
  rw [parseDigits]
  simp only [hsplit.1, hsplit.2]
  rw [if_neg (by simp [List.isEmpty_iff, natChars_ne_nil n]), decodeDigits_natChars]

theorem parseStrRest_safe (s : String) (hs : s.data.all jsonSafe = true) (rest : List Char) :
    parseStrRest (s.data ++ '"' :: rest) = some (s, rest) := by
  have hall : s.data.all (fun c => c ≠ '"') = true := by
    simp only [List.all_eq_true] at hs ⊢
    intro c hc
    have hcs := hs c hc
    simp only [jsonSafe, Bool.and_eq_true, decide_eq_true_eq] at hcs
    simp [hcs.1.2]
  have hsplit := takeWhile_append_not (fun c => decide (c ≠ '"')) s.data ('"' :: rest)
    (by simpa using hall) (by simp)
  rw [parseStrRest]
  simp only [hsplit.1, hsplit.2]

mutual
/-- Are all dictionary keys (at every nesting level) strings? -/
def PyVal.strKeys : PyVal → Bool
  | .pnone | .pbool _ | .pint _ | .pstr _ => true
  | .plist xs => xs.strKeys
  | .pdict es => es.strKeys
def PyList.strKeys : PyList → Bool
  | .nil => true
  | .cons h t => h.strKeys && t.strKeys
def PyDict.strKeys : PyDict → Bool
  | .nil => true
  | .cons k v t => (match k with | .pstr _ => true | _ => false) && v.strKeys && t.strKeys
end

theorem pyVal_need_pos (v : PyVal) : 1 ≤ v.need := by
  cases v <;> simp [PyVal.need]

theorem pyList_need_pos (xs : PyList) : 1 ≤ xs.need := by
  cases xs <;> simp [PyList.need]

theorem pyDict_need_pos (es : PyDict) : 1 ≤ es.need := by
  cases es <;> simp [PyDict.need]

/-- Characters that can begin the encoding of a value. -/
def startOK (c : Char) : Bool :=
  c = '[' || c = lbrace || c = '"' || c = 'n' || c = 't' || c = 'f' || c = '-' || c.isDigit

theorem natChars_head_digit (n : Nat) :
    ∃ c r, natChars n = c :: r ∧ c.isDigit = true := by
  have hne := natChars_ne_nil n
  have hall := natChars_all_digit n
  cases h : natChars n with
  | nil => exact absurd h hne
  | cons c r =>
    refine ⟨c, r, rfl, ?_⟩
    rw [h] at hall
    simp only [List.all_cons, Bool.and_eq_true] at hall
    exact hall.1

theorem dumpVal_start (v : PyVal) (cs : List Char) (h : dumpVal v = some cs) :
    ∃ c r, cs = c :: r ∧ startOK c = true := by
  cases v with
  | pnone => simp [dumpVal] at h; exact ⟨'n', _, h.symm, by decide⟩
  | pbool b =>
    cases b with
    | true => simp [dumpVal] at h; exact ⟨'t', _, h.symm, by decide⟩
    | false => simp [dumpVal] at h; exact ⟨'f', _, h.symm, by decide⟩
  | pint n =>
    simp only [dumpVal, Option.some.injEq] at h
    subst h
    rw [intChars]
    by_cases hn : n < 0
    · rw [if_pos hn]; exact ⟨'-', _, rfl, by decide⟩
    · rw [if_neg hn]
      obtain ⟨c, r, hc, hd⟩ := natChars_head_digit n.toNat
      exact ⟨c, r, hc, by simp [startOK, hd]⟩
  | pstr s =>
    rw [dumpVal, dumpStr] at h
    split at h
    · simp only [Option.some.injEq] at h
      exact ⟨'"', _, h.symm, by decide⟩
    · simp at h
  | plist xs =>
    rw [dumpVal] at h
    simp only [Option.map_eq_some'] at h
    obtain ⟨cs', _, rfl⟩ := h
    exact ⟨'[', cs', rfl, by decide⟩
  | pdict es =>
    rw [dumpVal] at h
    simp only [Option.map_eq_some'] at h
    obtain ⟨cs', _, rfl⟩ := h
    exact ⟨lbrace, cs', rfl, by simp [startOK]⟩

theorem dumpItemsRest_head (t : PyList) (cs : List Char) (h : dumpItemsRest t = some cs) :
    ∃ c r, cs = c :: r ∧ (c = ']' ∨ c = ',') := by
  cases t with
  | nil => simp [dumpItemsRest] at h; exact ⟨']', [], h.symm, Or.inl rfl⟩
  | cons a l =>
    rw [dumpItemsRest] at h
    split at h
    · simp only [Option.some.injEq] at h
      exact ⟨',', _, h.symm, Or.inr rfl⟩
    · simp at h

theorem dumpEntriesRest_head (t : PyDict) (cs : List Char) (h : dumpEntriesRest t = some cs) :
    ∃ c r, cs = c :: r ∧ (c = rbrace ∨ c = ',') := by
  cases t with
  | nil => simp [dumpEntriesRest] at h; exact ⟨rbrace, [], h.symm, Or.inl rfl⟩
  | cons k v l =>
    rw [dumpEntriesRest] at h
    split at h
    · simp only [Option.some.injEq] at h
      exact ⟨',', _, h.symm, Or.inr rfl⟩
    · simp at h

theorem headNotDigit_itemsRest (t : PyList) (cs rest : List Char) (h : dumpItemsRest t = some cs) :
    headNotDigit (cs ++ rest) = true := by
  obtain ⟨c, r, rfl, hc⟩ := dumpItemsRest_head t cs h
  rcases hc with rfl | rfl <;> (simp only [List.cons_append, headNotDigit]; decide)

theorem headNotDigit_entriesRest (t : PyDict) (cs rest : List Char) (h : dumpEntriesRest t = some cs) :
    headNotDigit (cs ++ rest) = true := by
  obtain ⟨c, r, rfl, hc⟩ := dumpEntriesRest_head t cs h
  rcases hc with rfl | rfl <;> (simp only [List.cons_append, headNotDigit]; decide)

theorem dumpKey_length_pos (k : PyVal) (cs : List Char) (h : dumpKey k = some cs) :
    1 ≤ cs.length := by
  cases k with
  | pstr s =>
    rw [dumpKey, dumpStr] at h
    split at h
    · simp only [Option.some.injEq] at h; subst h; simp
    · simp at h
  | pbool b =>
    cases b <;> simp only [dumpKey, Option.some.injEq] at h <;> subst h <;> simp
  | pnone => simp only [dumpKey, Option.some.injEq] at h; subst h; simp
  | pint n => simp only [dumpKey, Option.some.injEq] at h; subst h; simp
  | plist xs => simp [dumpKey] at h
  | pdict es => simp [dumpKey] at h

mutual
theorem dumpVal_need_le : ∀ (v : PyVal) (cs : List Char), dumpVal v = some cs → v.need ≤ cs.length
  | .pnone, cs, h => by
    simp only [dumpVal, Option.some.injEq] at h
    subst h; simp [PyVal.need]
  | .pbool true, cs, h => by
    simp only [dumpVal, Option.some.injEq] at h
    subst h; simp [PyVal.need]
  | .pbool false, cs, h => by
    simp only [dumpVal, Option.some.injEq] at h
    subst h; simp [PyVal.need]
  | .pint n, cs, h => by
    simp only [dumpVal, Option.some.injEq] at h
    subst h
    have : intChars n ≠ [] := by
      rw [intChars]; split
      · simp
      · exact natChars_ne_nil _
    have := List.length_pos.mpr this
    simp [PyVal.need]; omega
  | .pstr s, cs, h => by
    rw [dumpVal, dumpStr] at h
    split at h
    · simp only [Option.some.injEq] at h
      subst h; simp [PyVal.need]
    · simp at h
  | .plist xs, cs, h => by
    rw [dumpVal] at h
    simp only [Option.map_eq_some'] at h
    obtain ⟨cs', hcs', rfl⟩ := h
    have := dumpItems_need_le xs cs' hcs'
    simp [PyVal.need, List.length_cons]; omega
  | .pdict es, cs, h => by
    rw [dumpVal] at h
    simp only [Option.map_eq_some'] at h
    obtain ⟨cs', hcs', rfl⟩ := h
    have := dumpEntries_need_le es cs' hcs'
    simp [PyVal.need, List.length_cons]; omega

theorem dumpItems_need_le : ∀ (xs : PyList) (cs : List Char), dumpItems xs = some cs → xs.need ≤ cs.length
  | .nil, cs, h => by
    simp only [dumpItems, Option.some.injEq] at h
    subst h; simp [PyList.need]
  | .cons a l, cs, h => by
    rw [dumpItems] at h
    split at h
    case _ hc tc e1 e2 =>
      simp only [Option.some.injEq] at h
      subst h
      have h1 := dumpVal_need_le a _ e1
      have h2 := dumpItemsRest_need_le l _ e2
      have p1 := pyVal_need_pos a
      have p2 := pyList_need_pos l
      simp only [PyList.need, List.length_append]
      rcases Nat.le_total a.need l.need with hmax | hmax
      · rw [Nat.max_eq_right hmax]; omega
      · rw [Nat.max_eq_left hmax]; omega
    · simp at h

theorem dumpItemsRest_need_le : ∀ (xs : PyList) (cs : List Char), dumpItemsRest xs = some cs → xs.need ≤ cs.length
  | .nil, cs, h => by
    simp only [dumpItemsRest, Option.some.injEq] at h
    subst h; simp [PyList.need]
  | .cons a l, cs, h => by
    rw [dumpItemsRest] at h
    split at h
    case _ hc tc e1 e2 =>
      simp only [Option.some.injEq] at h
      subst h
      have h1 := dumpVal_need_le a _ e1
      have h2 := dumpItemsRest_need_le l _ e2
      simp only [PyList.need, List.length_cons, List.length_append]
      rcases Nat.le_total a.need l.need with hmax | hmax
      · rw [Nat.max_eq_right hmax]; omega
      · rw [Nat.max_eq_left hmax]; omega
    · simp at h

theorem dumpEntries_need_le : ∀ (es : PyDict) (cs : List Char), dumpEntries es = some cs → es.need ≤ cs.length
  | .nil, cs, h => by
    simp only [dumpEntries, Option.some.injEq] at h
    subst h; simp [PyDict.need]
  | .cons k v l, cs, h => by
    rw [dumpEntries] at h
    split at h
    case _ kc vc tc e1 e2 e3 =>
      simp only [Option.some.injEq] at h
      subst h
      have h1 := dumpVal_need_le v _ e2
      have h2 := dumpEntriesRest_need_le l _ e3
      have p1 := pyVal_need_pos v
      have p2 := pyDict_need_pos l
      have hk := dumpKey_length_pos k _ e1
      simp only [PyDict.need, List.length_append, List.length_cons]
      rcases Nat.le_total (v.need + 1) l.need with hmax | hmax
      · rw [Nat.max_eq_right hmax]; omega
      · rw [Nat.max_eq_left hmax]; omega
    · simp at h

theorem dumpEntriesRest_need_le : ∀ (es : PyDict) (cs : List Char), dumpEntriesRest es = some cs → es.need ≤ cs.length
  | .nil, cs, h => by
    simp only [dumpEntriesRest, Option.some.injEq] at h
    subst h; simp [PyDict.need]
  | .cons k v l, cs, h => by
    rw [dumpEntriesRest] at h
    split at h
    case _ kc vc tc e1 e2 e3 =>
      simp only [Option.some.injEq] at h
      subst h
      have h1 := dumpVal_need_le v _ e2
      have h2 := dumpEntriesRest_need_le l _ e3
      simp only [PyDict.need, List.length_append, List.length_cons]
      rcases Nat.le_total (v.need + 1) l.need with hmax | hmax
      · rw [Nat.max_eq_right hmax]; omega
      · rw [Nat.max_eq_left hmax]; omega
    · simp at h
end

theorem parseVal_digit (f : Nat) (c : Char) (r : List Char) (h : c.isDigit = true) :
    parseVal (f + 1) (c :: r) = (parseDigits (c :: r)).map (fun p => (.pint (p.1 : Int), p.2)) := by
  have h1 : c ≠ 'n' := by rintro rfl; exact absurd h (by decide)
  have h2 : c ≠ 't' := by rintro rfl; exact absurd h (by decide)
  have h3 : c ≠ 'f' := by rintro rfl; exact absurd h (by decide)
  have h4 : c ≠ '"' := by rintro rfl; exact absurd h (by decide)
  have h5 : c ≠ '[' := by rintro rfl; exact absurd h (by decide)
  have h6 : c ≠ lbrace := by rintro rfl; exact absurd h (by decide)
  have h7 : c ≠ '-' := by rintro rfl; exact absurd h (by decide)
  simp [parseVal, h1, h2, h3, h4, h5, h6, h7, h]

theorem startOK_ne (c : Char) (h : startOK c = true) :
    c ≠ ']' ∧ c ≠ ',' ∧ c ≠ rbrace := by
  refine ⟨?_, ?_, ?_⟩ <;> rintro rfl <;> revert h <;> decide

theorem parseEntry_red (f : Nat) (R : List Char) :
    parseEntry (f + 1) ('"' :: R) =
      (match parseStrRest R with
       | some (s, r1) =>
         (match r1 with
          | ':' :: ' ' :: r2 =>
            (match parseVal f r2 with
             | some (v, r3) => some (.pstr s, v, r3)
             | none => none)
          | _ => none)
       | none => none) := rfl

theorem parseEntry_eq (f : Nat) (s : String) (v : PyVal) (vc rest : List Char)
    (hs : s.data.all jsonSafe = true)
    (hv : parseVal f (vc ++ rest) = some (v, rest)) :
    parseEntry (f + 1) ('"' :: (s.data ++ '"' :: ':' :: ' ' :: (vc ++ rest))) = some (.pstr s, v, rest) := by
  rw [parseEntry_red]
  rw [parseStrRest_safe s hs (':' :: ' ' :: (vc ++ rest))]
  simp only [hv]

mutual
theorem parse_dumpVal : ∀ (v : PyVal) (f : Nat) (cs rest : List Char),
    v.strKeys = true → dumpVal v = some cs → v.need ≤ f → headNotDigit rest = true →
    parseVal f (cs ++ rest) = some (v, rest)
  | .pnone, f, cs, rest => by
    intro _ hd hf _
    simp only [dumpVal, Option.some.injEq] at hd
    subst hd
    simp only [PyVal.need] at hf
    cases f with
    | zero => omega
    | succ f => rfl
  | .pbool true, f, cs, rest => by
    intro _ hd hf _
    simp only [dumpVal, Option.some.injEq] at hd
    subst hd
    simp only [PyVal.need] at hf
    cases f with
    | zero => omega
    | succ f => rfl
  | .pbool false, f, cs, rest => by
    intro _ hd hf _
    simp only [dumpVal, Option.some.injEq] at hd
    subst hd
    simp only [PyVal.need] at hf
    cases f with
    | zero => omega
    | succ f => rfl
  | .pint n, f, cs, rest => by
    intro _ hd hf hr
    simp only [dumpVal, Option.some.injEq] at hd
    subst hd
    simp only [PyVal.need] at hf
    cases f with
    | zero => omega
    | succ f =>
      rw [intChars]
      by_cases hn : n < 0
      · rw [if_pos hn]
        rw [List.cons_append]
        rw [show parseVal (f + 1) ('-' :: (natChars n.natAbs ++ rest))
            = (parseDigits (natChars n.natAbs ++ rest)).map (fun p => (.pint (-(p.1 : Int)), p.2)) from rfl]
        rw [parseDigits_natChars n.natAbs rest hr]
        have hcast : (-(n.natAbs : Int)) = n := by omega
        simp only [Option.map_some', hcast]
      · rw [if_neg hn]
        obtain ⟨c, r, hc, hdig⟩ := natChars_head_digit n.toNat
        rw [hc, List.cons_append, parseVal_digit f c (r ++ rest) hdig]
        rw [show c :: (r ++ rest) = (c :: r) ++ rest from rfl, ← hc]
        rw [parseDigits_natChars n.toNat rest hr]
        have hcast : ((n.toNat : Int)) = n := by omega
        simp only [Option.map_some', hcast]
  | .pstr s, f, cs, rest => by
    intro _ hd hf _
    rw [dumpVal, dumpStr] at hd
    split at hd
    case isTrue hs =>
      simp only [Option.some.injEq] at hd
      subst hd
      simp only [PyVal.need] at hf
      cases f with
      | zero => omega
      | succ f =>
        simp only [List.cons_append, List.append_assoc, List.singleton_append, List.nil_append]
        rw [show parseVal (f + 1) ('"' :: (s.data ++ '"' :: rest))
            = (parseStrRest (s.data ++ '"' :: rest)).map (fun p => (.pstr p.1, p.2)) from rfl]
        rw [parseStrRest_safe s hs rest]
        rfl
    case isFalse => simp at hd
  | .plist xs, f, cs, rest => by
    intro hk hd hf _
    rw [dumpVal] at hd
    simp only [Option.map_eq_some'] at hd
    obtain ⟨cs', hcs', rfl⟩ := hd
    simp only [PyVal.need] at hf
    cases f with
    | zero => omega
    | succ f =>
      rw [List.cons_append]
      rw [show parseVal (f + 1) ('[' :: (cs' ++ rest))
          = (parseItems f (cs' ++ rest)).map (fun p => (.plist p.1, p.2)) from rfl]
      rw [parse_dumpItems xs f cs' rest (by simpa [PyVal.strKeys] using hk) hcs' (by omega)]
      rfl
  | .pdict es, f, cs, rest => by
    intro hk hd hf _
    rw [dumpVal] at hd
    simp only [Option.map_eq_some'] at hd
    obtain ⟨cs', hcs', rfl⟩ := hd
    simp only [PyVal.need] at hf
    cases f with
    | zero => omega
    | succ f =>
      rw [List.cons_append]
      rw [show parseVal (f + 1) (lbrace :: (cs' ++ rest))
          = (parseEntries f (cs' ++ rest)).map (fun p => (.pdict p.1, p.2)) from rfl]
      rw [parse_dumpEntries es f cs' rest (by simpa [PyVal.strKeys] using hk) hcs' (by omega)]
      rfl

theorem parse_dumpItems : ∀ (xs : PyList) (f : Nat) (cs rest : List Char),
    xs.strKeys = true → dumpItems xs = some cs → xs.need ≤ f →
    parseItems f (cs ++ rest) = some (xs, rest)
  | .nil, f, cs, rest => by
    intro _ hd hf
    simp only [dumpItems, Option.some.injEq] at hd
    subst hd
    simp only [PyList.need] at hf
    cases f with
    | zero => omega
    | succ f => rfl
  | .cons a l, f, cs, rest => by
    intro hk hd hf
    rw [dumpItems] at hd
    split at hd
    case _ hc tc e1 e2 =>
      simp only [Option.some.injEq] at hd
      subst hd
      simp only [PyList.strKeys, Bool.and_eq_true] at hk
      simp only [PyList.need] at hf
      cases f with
      | zero => omega
      | succ f =>
        have hm1 : a.need ≤ f := by
          have := Nat.le_max_left a.need l.need; omega
        have hm2 : l.need ≤ f := by
          have := Nat.le_max_right a.need l.need; omega
        obtain ⟨c, r, rfl, hst⟩ := dumpVal_start a hc e1
        obtain ⟨hne1, -, -⟩ := startOK_ne c hst
        simp only [List.cons_append, List.append_assoc]
        rw [parseItems]
        rw [if_neg hne1]
        rw [show c :: (r ++ (tc ++ rest)) = (c :: r) ++ (tc ++ rest) from rfl]
        simp only [parse_dumpVal a f (c :: r) (tc ++ rest) hk.1 e1 hm1 (headNotDigit_itemsRest l tc rest e2),
          parse_dumpItemsRest l f tc rest hk.2 e2 hm2]
    case _ => simp at hd

theorem parse_dumpItemsRest : ∀ (xs : PyList) (f : Nat) (cs rest : List Char),
    xs.strKeys = true → dumpItemsRest xs = some cs → xs.need ≤ f →
    parseItemsRest f (cs ++ rest) = some (xs, rest)
  | .nil, f, cs, rest => by
    intro _ hd hf
    simp only [dumpItemsRest, Option.some.injEq] at hd
    subst hd
    simp only [PyList.need] at hf
    cases f with
    | zero => omega
    | succ f => rfl
  | .cons a l, f, cs, rest => by
    intro hk hd hf
    rw [dumpItemsRest] at hd
    split at hd
    case _ hc tc e1 e2 =>
      simp only [Option.some.injEq] at hd
      subst hd
      simp only [PyList.strKeys, Bool.and_eq_true] at hk
      simp only [PyList.need] at hf
      cases f with
      | zero => omega
      | succ f =>
        have hm1 : a.need ≤ f := by
          have := Nat.le_max_left a.need l.need; omega
        have hm2 : l.need ≤ f := by
          have := Nat.le_max_right a.need l.need; omega
        simp only [List.cons_append, List.append_assoc]
        rw [show parseItemsRest (f + 1) (',' :: ' ' :: (hc ++ (tc ++ rest)))
            = (match parseVal f (hc ++ (tc ++ rest)) with
               | some (v, r2) =>
                 match parseItemsRest f r2 with
                 | some (t, r3) => some (PyList.cons v t, r3)
                 | none => none
               | none => none) from rfl]
        simp only [parse_dumpVal a f hc (tc ++ rest) hk.1 e1 hm1 (headNotDigit_itemsRest l tc rest e2),
          parse_dumpItemsRest l f tc rest hk.2 e2 hm2]
    case _ => simp at hd

theorem parse_dumpEntries : ∀ (es : PyDict) (f : Nat) (cs rest : List Char),
    es.strKeys = true → dumpEntries es = some cs → es.need ≤ f →
    parseEntries f (cs ++ rest) = some (es, rest)
  | .nil, f, cs, rest => by
    intro _ hd hf
    simp only [dumpEntries, Option.some.injEq] at hd
    subst hd
    simp only [PyDict.need] at hf
    cases f with
    | zero => omega
    | succ f => rfl
  | .cons k v l, f, cs, rest => by
    intro hk hd hf
    rw [dumpEntries] at hd
    split at hd
    case _ kc vc tc e1 e2 e3 =>
      simp only [Option.some.injEq] at hd
      subst hd
      simp only [PyDict.strKeys, Bool.and_eq_true] at hk
      obtain ⟨⟨hk1, hk2⟩, hk3⟩ := hk
      have hs : ∃ s, k = .pstr s := by
        cases k
        case pstr s => exact ⟨s, rfl⟩
        all_goals exact Bool.noConfusion hk1
      obtain ⟨s, rfl⟩ := hs
      rw [dumpKey, dumpStr] at e1
      split at e1
      case isTrue hsafe =>
        simp only [Option.some.injEq] at e1
        subst e1
        simp only [PyDict.need] at hf
        cases f with
        | zero => omega
        | succ f =>
          have hm1 : v.need + 1 ≤ f := by
            have := Nat.le_max_left (v.need + 1) l.need; omega
          have hm2 : l.need ≤ f := by
            have := Nat.le_max_right (v.need + 1) l.need; omega
          obtain ⟨f', rfl⟩ : ∃ f', f = f' + 1 := ⟨f - 1, by omega⟩
          simp only [List.cons_append, List.append_assoc, List.singleton_append, List.nil_append]
          rw [parseEntries]
          rw [if_neg (by decide : ¬('"' : Char) = rbrace)]
          rw [parseEntry_eq f' s v vc (tc ++ rest) hsafe
            (parse_dumpVal v f' vc (tc ++ rest) hk2 e2 (by omega) (headNotDigit_entriesRest l tc rest e3))]
          simp only [parse_dumpEntriesRest l (f' + 1) tc rest hk3 e3 (by omega)]
      case isFalse => simp at e1
    case _ => simp at hd

theorem parse_dumpEntriesRest : ∀ (es : PyDict) (f : Nat) (cs rest : List Char),
    es.strKeys = true → dumpEntriesRest es = some cs → es.need ≤ f →
    parseEntriesRest f (cs ++ rest) = some (es, rest)
  | .nil, f, cs, rest => by
    intro _ hd hf
    simp only [dumpEntriesRest, Option.some.injEq] at hd
    subst hd
    simp only [PyDict.need] at hf
    cases f with
    | zero => omega
    | succ f => rfl
  | .cons k v l, f, cs, rest => by
    intro hk hd hf
    rw [dumpEntriesRest] at hd
    split at hd
    case _ kc vc tc e1 e2 e3 =>
      simp only [Option.some.injEq] at hd
      subst hd
      simp only [PyDict.strKeys, Bool.and_eq_true] at hk
      obtain ⟨⟨hk1, hk2⟩, hk3⟩ := hk
      have hs : ∃ s, k = .pstr s := by
        cases k
        case pstr s => exact ⟨s, rfl⟩
        all_goals exact Bool.noConfusion hk1
      obtain ⟨s, rfl⟩ := hs
      rw [dumpKey, dumpStr] at e1
      split at e1
      case isTrue hsafe =>
        simp only [Option.some.injEq] at e1
        subst e1
        simp only [PyDict.need] at hf
        cases f with
        | zero => omega
        | succ f =>
          have hm1 : v.need + 1 ≤ f := by
            have := Nat.le_max_left (v.need + 1) l.need; omega
          have hm2 : l.need ≤ f := by
            have := Nat.le_max_right (v.need + 1) l.need; omega
          obtain ⟨f', rfl⟩ : ∃ f', f = f' + 1 := ⟨f - 1, by omega⟩
          simp only [List.cons_append, List.append_assoc, List.singleton_append, List.nil_append]
          rw [parseEntriesRest]
          rw [if_neg (by decide : ¬(',' : Char) = rbrace), if_pos rfl]
          rw [parseEntry_eq f' s v vc (tc ++ rest) hsafe
            (parse_dumpVal v f' vc (tc ++ rest) hk2 e2 (by omega) (headNotDigit_entriesRest l tc rest e3))]
          simp only [parse_dumpEntriesRest l (f' + 1) tc rest hk3 e3 (by omega)]
      case isFalse => simp at e1
    case _ => simp at hd
end

theorem json_loads_dumps (v : PyVal) (s : String) (hk : v.strKeys = true)
    (hd : json_dumps v = some s) : json_loads s = some v := by
  rw [json_dumps] at hd
  simp only [Option.map_eq_some'] at hd
  obtain ⟨cs, hcs, rfl⟩ := hd
  have hlen : (String.mk cs).length = cs.length := rfl
  have hdata : (String.mk cs).data = cs := rfl
  rw [json_loads, hlen, hdata]
  have := parse_dumpVal v (cs.length + 1) cs [] hk hcs
    (le_trans (dumpVal_need_le v cs hcs) (by omega)) rfl
  rw [List.append_nil] at this
  rw [this]

/-! ### Constructor specifications and registry

`PrimitiveConstructorSpec`, `ConstructorRegistry` and the scoped-rule
discipline come from `tyro.constructors` (declared by the test file;
the implementation is not under `src/`), so they are modelled from the
spec (§3 ConstructorSpec, §4.1 ConstructorRegistry, §5 scoping). -/

/-- Modelled from the spec: a primitive constructor specification
(`tyro.constructors.PrimitiveConstructorSpec`): token arity, display
metavar, token decoder, instance predicate, and token encoder.  The
decoder and encoder are fallible (`Option`) to model Python
exceptions. -/
structure PrimitiveConstructorSpec where
  nargs : Nat
  metavar : String
  instance_from_str : List String → Option PyVal
  is_instance : PyVal → Bool
  str_from_instance : PyVal → Option (List String)

/-- The JSON constructor spec of
`src/tests/test_py311_generated/test_custom_primitive_generated.py`
(lines 8–14): nargs 1, decoder `json.loads(args[0])`, predicate
`isinstance(x, dict)`, encoder `[json.dumps(x)]`. -/
def json_constructor_spec : PrimitiveConstructorSpec where
  nargs := 1
  metavar := "JSON"
  instance_from_str := fun args =>
    match args with
    | t :: _ => json_loads t
    | [] => none
  is_instance := fun x => x.isDict
  str_from_instance := fun x => (json_dumps x).map (fun s => [s])

/-- Decode one CLI token as a Python `int` (the whole token must be a
decimal numeral). -/
def intFromString (s : String) : Option Int :=
  match s.data with
  | [] => none
  | c :: r =>
    if c = '-' then
      (match parseDigits r with
       | some (n, []) => some (-(n : Int))
       | _ => none)
    else
      (match parseDigits (c :: r) with
       | some (n, []) => some ((n : Int))
       | _ => none)

/-- Modelled from the spec: the built-in boolean constructor
(explicit `True`/`False` token). -/
def boolSpec : PrimitiveConstructorSpec where
  nargs := 1
  metavar := "\x7bTrue,False\x7d"
  instance_from_str := fun toks =>
    match toks with
    | ["True"] => some (.pbool true)
    | ["False"] => some (.pbool false)
    | _ => none
  is_instance := fun x => match x with | .pbool _ => true | _ => false
  str_from_instance := fun x =>
    match x with
    | .pbool true => some ["True"]
    | .pbool false => some ["False"]
    | _ => none

/-- Modelled from the spec: the built-in integer constructor. -/
def intSpec : PrimitiveConstructorSpec where
  nargs := 1
  metavar := "INT"
  instance_from_str := fun toks =>
    match toks with
    | [t] => (intFromString t).map .pint
    | _ => none
  is_instance := fun x => match x with | .pint _ => true | _ => false
  str_from_instance := fun x =>
    match x with
    | .pint n => some [String.mk (intChars n)]
    | _ => none

/-- Modelled from the spec: the built-in string constructor. -/
def strSpec : PrimitiveConstructorSpec where
  nargs := 1
  metavar := "STR"
  instance_from_str := fun toks =>
    match toks with
    | [t] => some (.pstr t)
    | _ => none
  is_instance := fun x => match x with | .pstr _ => true | _ => false
  str_from_instance := fun x =>
    match x with
    | .pstr s => some [s]
    | _ => none

mutual
/-- The shapes of type annotations exercised by the claims: the three
built-in primitive shapes, `Dict[str, Any]`, and nested structural
types (dataclass-like records with named, typed, optionally defaulted
fields in declaration order). -/
inductive TypeExpr where
  | tbool : TypeExpr
  | tint : TypeExpr
  | tstr : TypeExpr
  | tdictStrAny : TypeExpr
  | tstruct (fs : FieldList) : TypeExpr
deriving DecidableEq, Repr

inductive FieldList where
  | fnil : FieldList
  | fcons (name : String) (ty : TypeExpr) (default : Option PyVal) (tl : FieldList) : FieldList
deriving DecidableEq, Repr
end

/-- A registered primitive rule: from type information to a spec, or
`none` when the rule does not apply (the test's `primitive_rule`
signature). -/
def Rule : Type := TypeExpr → Option PrimitiveConstructorSpec

/-- Modelled from the spec: the built-in rules for well-known
primitive shapes (§4.1 step 3); there is no built-in rule for
`Dict[str, Any]`. -/
def builtinRules : List Rule :=
  [fun t => match t with | .tbool => some boolSpec | _ => none,
   fun t => match t with | .tint => some intSpec | _ => none,
   fun t => match t with | .tstr => some strSpec | _ => none]

/-- Structural (builder-phase) failures. -/
inductive BuildError where
  | noMatchingRule (ty : TypeExpr) : BuildError
deriving DecidableEq, Repr

/-- First rule in the list that matches the type. -/
def firstRule : List Rule → TypeExpr → Option PrimitiveConstructorSpec
  | [], _ => none
  | r :: rs, t =>
    match r t with
    | some s => some s
    | none => firstRule rs t

/-- Modelled from the spec: registry consultation order (§4.1) —
user-registered rules in registration order, first match wins, then
built-in rules, then a no-matching-rule failure. -/
def lookupSpec (rules : List Rule) (t : TypeExpr) : Except BuildError PrimitiveConstructorSpec :=
  match firstRule (rules ++ builtinRules) t with
  | some s => .ok s
  | none => .error (.noMatchingRule t)

/-- A constructor registry value: its list of registered rules, in
registration order (test lines 19–29). -/
structure ConstructorRegistry where
  rules : List Rule

/-- Modelled from the spec: the scope stack of active registries (§5);
each entry is the rule list of one entered registry scope, innermost
first. -/
def RegistryState : Type := List (List Rule)

/-- Modelled from the spec: entering a registry scope pushes its rules
(`with primitive_registry:`). -/
def enterScope (reg : ConstructorRegistry) (s : RegistryState) : RegistryState :=
  reg.rules :: s

/-- Modelled from the spec: leaving a scope pops the innermost rules,
on any exit path. -/
def exitScope (s : RegistryState) : RegistryState := s.tail

/-- The user rules visible to a derivation under a scope stack. -/
def activeRules (s : RegistryState) : List Rule := s.flatten

/-- Modelled from the spec: run a body inside a registry scope; the
rules are pushed before the body and popped afterwards regardless of
the body's result (which may be a value or an error). -/
def withRegistry {α : Type} (reg : ConstructorRegistry) (s : RegistryState)
    (body : RegistryState → α) : α × RegistryState :=
  (body (enterScope reg s), exitScope (enterScope reg s))

/-! ### Schema tree and builder -/

mutual
/-- Modelled from the spec: the parser tree (§3 ParserNode): leaves
consuming raw tokens, groups for nested structs, and choices for
unions (with a default variant tag and named variants). -/
inductive ParserNode where
  | leaf (path : String) (required : Bool) (default : Option PyVal)
      (spec : PrimitiveConstructorSpec) (isFlag : Bool) : ParserNode
  | group (path : String) (children : ChildList) : ParserNode
  | choice (path : String) (defaultTag : Option String) (variants : ChildList) : ParserNode

inductive ChildList where
  | cnil : ChildList
  | ccons (name : String) (node : ParserNode) (tl : ChildList) : ChildList
end

/-- Path prefixing for nested fields (§4.3 step 2). -/
def joinPath (pre name : String) : String :=
  if pre = "" then name else pre ++ "." ++ name

mutual
/-- Modelled from the spec: build one field's subtree (§4.3): nested
structs recurse as groups; other shapes become leaves whose
constructor comes from the registry.  `fdef` is the field's own
default, `ov` the value the default instance supplies at this path;
the instance value overrides the per-field default where one exists,
and requiredness is decided by the per-field default alone.  Booleans
with a default are converted to flags (`cli` docstring, `_cli.py`
lines 66–67). -/
def buildType (rules : List Rule) : TypeExpr → String → Option PyVal → Option PyVal → Except BuildError ParserNode
  | .tstruct fs, path, fdef, ov =>
    let childInst : Option PyVal :=
      match ov with
      | some o => some o
      | none => fdef
    match buildFields rules fs childInst path with
    | .ok cs => .ok (.group path cs)
    | .error e => .error e
  | ty, path, fdef, ov =>
    match lookupSpec rules ty with
    | .ok spec =>
      let d : Option PyVal :=
        match fdef, ov with
        | some _, some o => some o
        | some d, none => some d
        | none, _ => none
      let isFlag : Bool := match ty with | .tbool => fdef.isSome | _ => false
      .ok (.leaf path fdef.isNone d spec isFlag)
    | .error e => .error e

/-- Modelled from the spec: walk a struct's fields in declaration
order (§4.3 step 1), prefixing paths and extracting each field's
default-instance override by attribute lookup. -/
def buildFields (rules : List Rule) : FieldList → Option PyVal → String → Except BuildError ChildList
  | .fnil, _, _ => .ok .cnil
  | .fcons name ty fdef tl, inst, pre =>
    let path := joinPath pre name
    let ov : Option PyVal :=
      match inst with
      | some i => i.attr name
      | none => none
    match buildType rules ty path fdef ov with
    | .ok node =>
      match buildFields rules tl inst pre with
      | .ok rest => .ok (.ccons name node rest)
      | .error e => .error e
    | .error e => .error e
end

/-- What the builder exposes to the front-end parser for each leaf
(§6): flattened path, token arity, and whether it is a boolean flag
pair. -/
structure LeafInfo where
  path : String
  nargs : Nat
  isFlag : Bool
deriving DecidableEq, Repr

mutual
/-- The flattened leaf-argument list of a tree, in tree order; a
choice contributes its discriminant and then its variants' leaves. -/
def ParserNode.leaves : ParserNode → List LeafInfo
  | .leaf path _ _ spec isFlag => [⟨path, spec.nargs, isFlag⟩]
  | .group _ cs => cs.leaves
  | .choice path _ vs => ⟨path, 1, false⟩ :: vs.leaves

def ChildList.leaves : ChildList → List LeafInfo
  | .cnil => []
  | .ccons _ n tl => n.leaves ++ tl.leaves
end

/-! ### Front-end parser (argparse collaborator) -/

/-- Flag rendering of a flattened path: underscores become dashes
(`flag_a` is set by `--flag-a`, examples file lines 28–32). -/
def dashed (s : String) : String :=
  String.mk (s.data.map (fun c => if c = '_' then '-' else c))

/-- The `--name` flag of a leaf. -/
def flagOf (path : String) : String := "--" ++ dashed path

/-- The `--no-name` flag of a boolean flag leaf. -/
def noFlagOf (path : String) : String := "--no-" ++ dashed path

/-- Front-end (argparse) failures; argparse reports them itself and
exits with status 2. -/
inductive FrontendError where
  | unrecognizedArgument (tok : String) : FrontendError
  | expectedTokens (flag : String) (n : Nat) : FrontendError
  | internalFuel : FrontendError
deriving DecidableEq, Repr

/-- The flat mapping the front-end parser returns (§6): one entry per
exposed leaf path, holding the raw token list when the argument was
provided and an absent marker otherwise. -/
def FlatMap : Type := List (String × Option (List String))

/-- Every exposed leaf starts absent. -/
def initMap (leaves : List LeafInfo) : FlatMap :=
  leaves.map (fun l => (l.path, none))

/-- Record provided tokens for a path (last occurrence wins, as in
argparse). -/
def setKey (m : FlatMap) (p : String) (v : List String) : FlatMap :=
  m.map (fun kv => if kv.1 = p then (kv.1, some v) else kv)

/-- Match one raw token against the leaf list: a flag leaf matches
`--name` (tokens `["True"]`) or `--no-name` (tokens `["False"]`); a
non-flag leaf matches `--name` and will consume `nargs` following
tokens (signalled by `none`). -/
def matchTok : List LeafInfo → String → Option (LeafInfo × Option (List String))
  | [], _ => none
  | l :: ls, tok =>
    if l.isFlag && (tok = flagOf l.path) then some (l, some ["True"])
    else if l.isFlag && (tok = noFlagOf l.path) then some (l, some ["False"])
    else if !l.isFlag && (tok = flagOf l.path) then some (l, none)
    else matchTok ls tok

/-- Modelled from the spec: the front-end parsing loop — scan the raw
argument list, matching flags against the exposed leaf list and
consuming each non-flag leaf's `nargs` following tokens; unknown
tokens are a front-end error.  Fuelled by the argument count. -/
def frontendGo : Nat → List LeafInfo → FlatMap → List String → Except FrontendError FlatMap
  | _, _, m, [] => .ok m
  | 0, _, _, _ :: _ => .error .internalFuel
  | fuel + 1, leaves, m, tok :: rest =>
    match matchTok leaves tok with
    | some (l, some v) => frontendGo fuel leaves (setKey m l.path v) rest
    | some (l, none) =>
      if rest.length < l.nargs then .error (.expectedTokens tok l.nargs)
      else frontendGo fuel leaves (setKey m l.path (rest.take l.nargs)) (rest.drop l.nargs)
    | none => .error (.unrecognizedArgument tok)

/-- Modelled from the spec: the front-end parser (§6) — from the
exposed leaf list and the raw arguments to the flat path→tokens
mapping (`vars(parser.parse_args(args))`, `_cli.py` line 191). -/
def frontend (leaves : List LeafInfo) (argv : List String) : Except FrontendError FlatMap :=
  frontendGo argv.length leaves (initMap leaves) argv

/-! ### Python `str.replace` and the synthetic field name -/

/-- Fuelled worker for `str.replace`: leftmost non-overlapping
occurrences of `pat` are replaced by `rep`. -/
def replaceFuel : Nat → List Char → List Char → List Char → List Char
  | 0, _, _, l => l
  | fuel + 1, pat, rep, l =>
    match l with
    | [] => []
    | c :: rest =>
      if pat.isPrefixOf (c :: rest) then
        rep ++ replaceFuel fuel pat rep ((c :: rest).drop pat.length)
      else c :: replaceFuel fuel pat rep rest

/-- Python `s.replace(pat, rep)` for a non-empty pattern (the only use
in `_cli.py` has a non-empty pattern). -/
def pyReplace (s pat rep : String) : String :=
  if pat = "" then s else String.mk (replaceFuel s.data.length pat.data rep.data s.data)

/-- Modelled from the spec: the synthetic field name used when `cli`
wraps a non-nested target in a one-field dataclass
(`_strings.dummy_field_name`, whose definition is not under
`src/`). -/
def dummyFieldName : String := "dummy_field"

/-- `k.replace(dummy_field_name, "")` (`_cli.py` line 195). -/
def stripDummy (s : String) : String := pyReplace s dummyFieldName ""

/-! ### Reconstructor (`_calling.call_from_args` collaborator) -/

/-- User-input-time reconstruction failures (§7): the
`InstantiationError` family. -/
inductive InstErr where
  | missingRequiredArgument (path : String) : InstErr
  | conversionError (path : String) (tokens : List String) : InstErr
  | missingKey (path : String) : InstErr
  | unknownVariant (path : String) (tag : String) : InstErr
deriving DecidableEq, Repr

/-- Association lookup in the flat mapping: `none` when the path is
not a key at all, `some none` when present with the absent marker. -/
def lookupKey : FlatMap → String → Option (Option (List String))
  | [], _ => none
  | kv :: tl, p => if kv.1 = p then some kv.2 else lookupKey tl p

/-- The key set of the flat mapping. -/
def keysOf (m : FlatMap) : List String := m.map Prod.fst

mutual
/-- Modelled from the spec: the reconstructor (§4.4) — bottom-up
assembly of a typed instance from the flat mapping, returning the
value and the list of consumed paths.  A leaf looks up its path
(through the synthetic-name-stripping used for flattened keys); with
tokens it applies the constructor's decoder, absent it falls back to
its default or fails with `missingRequiredArgument`.  A group
assembles its children into the struct instance.  A choice reads its
discriminant (or its default tag) and recurses only into the selected
variant. -/
def assembleNode : ParserNode → FlatMap → Except InstErr (PyVal × List String)
  | .leaf path _ default spec _, m =>
    match lookupKey m (stripDummy path) with
    | some (some toks) =>
      match spec.instance_from_str toks with
      | some v => .ok (v, [stripDummy path])
      | none => .error (.conversionError path toks)
    | some none =>
      match default with
      | some d => .ok (d, [stripDummy path])
      | none => .error (.missingRequiredArgument path)
    | none => .error (.missingKey path)
  | .group _ cs, m =>
    match assembleChildren cs m with
    | .ok (es, consumed) => .ok (.pdict es, consumed)
    | .error e => .error e
  | .choice path dtag variants, m =>
    match lookupKey m (stripDummy path) with
    | some (some toks) =>
      match toks with
      | [tag] =>
        (match pickVariant path variants tag m with
         | .ok (v, consumed) => .ok (v, stripDummy path :: consumed)
         | .error e => .error e)
      | _ => .error (.conversionError path toks)
    | some none =>
      match dtag with
      | some tag =>
        (match pickVariant path variants tag m with
         | .ok (v, consumed) => .ok (v, stripDummy path :: consumed)
         | .error e => .error e)
      | none => .error (.missingRequiredArgument path)
    | none => .error (.missingKey path)

/-- Assemble a group's children in order, pairing each child's name
with its value in the resulting instance and concatenating consumed
paths. -/
def assembleChildren : ChildList → FlatMap → Except InstErr (PyDict × List String)
  | .cnil, _ => .ok (.nil, [])
  | .ccons name node tl, m =>
    match assembleNode node m with
    | .ok (v, c1) =>
      match assembleChildren tl m with
      | .ok (es, c2) => .ok (.cons (.pstr name) v es, c1 ++ c2)
      | .error e => .error e
    | .error e => .error e

/-- Recurse into the variant selected by the discriminant tag;
unselected variants are never consulted. -/
def pickVariant (path : String) : ChildList → String → FlatMap → Except InstErr (PyVal × List String)
  | .cnil, tag, _ => .error (.unknownVariant path tag)
  | .ccons name node tl, tag, m =>
    if name = tag then assembleNode node m else pickVariant path tl tag m
end

/-! ### The `cli()` entry point (`src/dcargs/_cli.py`) -/

/-- `_fields.is_nested_type`: is the target a nested structural type
(as opposed to a bare primitive annotation)? -/
def isNestedType : TypeExpr → Bool
  | .tstruct _ => true
  | _ => false

/-- `_cli.py` lines 130–143: a non-nested target is wrapped in a
synthetic one-field dataclass whose single field carries the supplied
default; the boolean records `dummy_wrapped`. -/
def cliWrap (t : TypeExpr) (default : Option PyVal) : TypeExpr × Bool :=
  if isNestedType t then (t, false)
  else (.tstruct (.fcons dummyFieldName t default .fnil), true)

/-- `_cli.py` lines 146–153: derive the parser tree for the (possibly
wrapped) target, with the supplied default instance as override
source. -/
def cliRoot (rules : List Rule) (t : TypeExpr) (default : Option PyVal) : Except BuildError ParserNode :=
  match (cliWrap t default).1 with
  | .tstruct fs =>
    (match buildFields rules fs default "" with
     | .ok cs => .ok (.group "" cs)
     | .error e => .error e)
  | ty =>
    (match buildType rules ty "" none default with
     | .ok n => .ok n
     | .error e => .error e)

/-- `_cli.py` line 157: `args = sys.argv[1:] if args is None else
args`. -/
def resolveArgs (args : Option (List String)) (sysArgv : List String) : List String :=
  match args with
  | none => sysArgv.tail
  | some l => l

/-- The completion-request sentinel flag (`_cli.py` line 158). -/
def completionFlag : String := "--dcargs-print-completion"

/-- Modelled from the spec: the shell-completion script produced by
the external `shtab.complete` collaborator (`_cli.py` lines 182–188);
its exact text is out of scope, only that it is printed. -/
def shtabComplete (shell : String) (progName : String) : String :=
  "shell completion script for " ++ shell ++ " (prog dcargs_" ++ progName ++ ")"

/-- The assertion message for an unsupported completion shell
(`_cli.py` lines 177–181). -/
def shellAssertionMsg (shell : String) : String :=
  "Shell should be one `bash`, `zsh`, or `tcsh`, but got " ++ shell

/-- The consumption assertion message (`_cli.py` lines 215–218). -/
def consumptionAssertMsg : String :=
  "Parsed keys that were not consumed by the reconstruction"

/-- Modelled from the spec: the short usage line `parser.print_usage()`
emits; its exact text is rendering, out of scope. -/
def usageLine (prog : Option String) : String :=
  "usage: " ++ (match prog with | some p => p | none => "prog")

/-- The human-readable message of an `InstantiationError`
(`e.args[0]`). -/
def errMessage : InstErr → String
  | .missingRequiredArgument p => "the following arguments are required: " ++ flagOf p
  | .conversionError p toks => "error parsing " ++ flagOf p ++ ": " ++ String.intercalate " " toks
  | .missingKey p => "internal error: missing key " ++ p
  | .unknownVariant p tag => "error parsing " ++ flagOf p ++ ": unknown variant " ++ tag

/-- The argparse-style message of a front-end error. -/
def frontendErrMsg : FrontendError → String
  | .unrecognizedArgument tok => "unrecognized arguments: " ++ tok
  | .expectedTokens flag n => "argument " ++ flag ++ ": expected " ++ String.mk (natChars n) ++ " argument"
  | .internalFuel => "internal error"

/-- `_cli.py` lines 193–197: strip the synthetic field name from every
parsed key. -/
def stripMapKeys (m : FlatMap) : FlatMap :=
  m.map (fun kv => (stripDummy kv.1, kv.2))

/-- The keys present in the flat mapping that the reconstruction did
not consume (`value_from_prefixed_field_name.keys() -
consumed_keywords`). -/
def leftoverKeys (m : FlatMap) (consumed : List String) : List String :=
  (keysOf m).filter (fun k => !(consumed.contains k))

/-- Observable outcome of one `cli()` call: a normal return with the
reconstructed value, a `SystemExit` (with what was printed and the
process exit status), a failed `assert`, or a structural error
escaping from schema derivation. -/
inductive CliOutcome where
  | returned (v : PyVal) : CliOutcome
  | exited (printed : List String) (code : Nat) : CliOutcome
  | raisedAssertion (msg : String) : CliOutcome
  | raisedStructural (e : BuildError) : CliOutcome
deriving DecidableEq, Repr

/-- `_cli.py` lines 193–197 condensed: the flat mapping handed to the
reconstructor — the front-end result, its keys stripped of the
synthetic field name when the target was wrapped. -/
def cliMapOf (t : TypeExpr) (default : Option PyVal) (m0 : FlatMap) : FlatMap :=
  if (cliWrap t default).2 then stripMapKeys m0 else m0

/-- `_cli.py` lines 199–222: the tail of `cli()` after front-end
parsing — reconstruct via `call_from_args`, on `InstantiationError`
print the usage line, a blank line and the message and raise a bare
`SystemExit` (status 0); assert total consumption; unwrap the
synthetic field; return. -/
def cliAfterParse (prog : Option String) (wrapped : Bool) (root : ParserNode) (m : FlatMap) : CliOutcome :=
  match assembleNode root m with
  | .error e => .exited [usageLine prog, "", errMessage e] 0
  | .ok (out, consumed) =>
    if (leftoverKeys m consumed).isEmpty then
      (if wrapped then
        (match out.attr dummyFieldName with
         | some v => .returned v
         | none => .raisedAssertion "synthetic field missing from output")
      else .returned out)
    else .raisedAssertion consumptionAssertMsg

set_option linter.unusedVariables false in
/-- Shallow embedding of `cli()` (`_cli.py` lines 47–223), following
the source's control flow: wrap non-nested targets (130–143); derive
the parser tree (146–153); resolve the argument list (157); handle
`--dcargs-print-completion` (158–189), printing a completion script
and raising a bare `SystemExit` for bash/zsh/tcsh and failing an
assertion otherwise; parse the arguments through the front-end (191),
argparse errors exiting with status 2; strip the synthetic field name
from parsed keys when wrapped (193–197); reconstruct via
`call_from_args` (199–207), an `InstantiationError` printing the usage
line, a blank line, and the message, then raising a bare `SystemExit`
(status 0, since `SystemExit()` carries no code) (208–213); assert
every parsed key was consumed (215–218); unwrap the synthetic field
(220–221); and return the output (222). -/
def cliModel (rules : List Rule) (t : TypeExpr) (prog : Option String)
    (description : Option String) (args : Option (List String))
    (default : Option PyVal) (sysArgv : List String) : CliOutcome :=
  match cliRoot rules t default with
  | .error e => .raisedStructural e
  | .ok root =>
    let argv := resolveArgs args sysArgv
    if 2 ≤ argv.length ∧ argv.headD "" = completionFlag then
      let shell := (argv.drop 1).headD ""
      if shell = "bash" ∨ shell = "zsh" ∨ shell = "tcsh" then
        .exited [shtabComplete shell (prog.getD "")] 0
      else .raisedAssertion (shellAssertionMsg shell)
    else
      match frontend root.leaves argv with
      | .error e => .exited [usageLine prog, frontendErrMsg e] 2
      | .ok m0 => cliAfterParse prog (cliWrap t default).2 root (cliMapOf t default m0)

/-! ### Consumption and claim theorems -/


theorem lookupKey_mem : ∀ (m : FlatMap) (p : String) (x : Option (List String)),
    lookupKey m p = some x → p ∈ keysOf m := by
  intro m
  induction m with
  | nil => intro p x h; simp [lookupKey] at h
  | cons kv tl ih =>
    intro p x h
    rw [lookupKey] at h
    split at h
    case isTrue he => simp [keysOf, ← he]
    case isFalse he =>
      have := ih p x h
      simp [keysOf] at this ⊢
      exact Or.inr this

mutual
theorem assembleNode_consumed_subset : ∀ (n : ParserNode) (m : FlatMap) (v : PyVal) (c : List String),
    assembleNode n m = .ok (v, c) → ∀ p ∈ c, p ∈ keysOf m
  | .leaf path req d spec fl, m, v, c => by
    intro h p hp
    simp only [assembleNode] at h
    split at h
    case _ toks heq =>
      split at h
      case _ => 
        simp only [Except.ok.injEq, Prod.mk.injEq] at h
        obtain ⟨-, rfl⟩ := h
        simp only [List.mem_singleton] at hp
        subst hp
        exact lookupKey_mem m _ _ heq
      case _ => exact absurd h (by simp)
    case _ heq =>
      split at h
      case _ =>
        simp only [Except.ok.injEq, Prod.mk.injEq] at h
        obtain ⟨-, rfl⟩ := h
        simp only [List.mem_singleton] at hp
        subst hp
        exact lookupKey_mem m _ _ heq
      case _ => exact absurd h (by simp)
    case _ => exact absurd h (by simp)
  | .group path cs, m, v, c => by
    intro h p hp
    simp only [assembleNode] at h
    split at h
    case _ es consumed heq =>
      simp only [Except.ok.injEq, Prod.mk.injEq] at h
      obtain ⟨-, rfl⟩ := h
      exact assembleChildren_consumed_subset cs m es consumed heq p hp
    case _ => exact absurd h (by simp)
  | .choice path dtag variants, m, v, c => by
    intro h p hp
    simp only [assembleNode] at h
    split at h
    case _ toks heq =>
      split at h
      case _ tag =>
        split at h
        case _ v' consumed heq2 =>
          simp only [Except.ok.injEq, Prod.mk.injEq] at h
          obtain ⟨-, rfl⟩ := h
          rcases List.mem_cons.mp hp with rfl | hp2
          · exact lookupKey_mem m _ _ heq
          · exact pickVariant_consumed_subset path variants tag m v' consumed heq2 p hp2
        case _ => exact absurd h (by simp)
      case _ => exact absurd h (by simp)
    case _ heq =>
      split at h
      case _ tag =>
        split at h
        case _ v' consumed heq2 =>
          simp only [Except.ok.injEq, Prod.mk.injEq] at h
          obtain ⟨-, rfl⟩ := h
          rcases List.mem_cons.mp hp with rfl | hp2
          · exact lookupKey_mem m _ _ heq
          · exact pickVariant_consumed_subset path variants tag m v' consumed heq2 p hp2
        case _ => exact absurd h (by simp)
      case _ => exact absurd h (by simp)
    case _ => exact absurd h (by simp)

theorem assembleChildren_consumed_subset : ∀ (cs : ChildList) (m : FlatMap) (es : PyDict) (c : List String),
    assembleChildren cs m = .ok (es, c) → ∀ p ∈ c, p ∈ keysOf m
  | .cnil, m, es, c => by
    intro h p hp
    simp only [assembleChildren, Except.ok.injEq, Prod.mk.injEq] at h
    obtain ⟨-, rfl⟩ := h
    simp at hp
  | .ccons name node tl, m, es, c => by
    intro h p hp
    rw [assembleChildren] at h
    split at h
    case _ v c1 heq1 =>
      split at h
      case _ es2 c2 heq2 =>
        simp only [Except.ok.injEq, Prod.mk.injEq] at h
        obtain ⟨-, rfl⟩ := h
        rcases List.mem_append.mp hp with h1 | h2
        · exact assembleNode_consumed_subset node m v c1 heq1 p h1
        · exact assembleChildren_consumed_subset tl m es2 c2 heq2 p h2
      case _ => exact absurd h (by simp)
    case _ => exact absurd h (by simp)

theorem pickVariant_consumed_subset : ∀ (path : String) (vs : ChildList) (tag : String) (m : FlatMap) (v : PyVal) (c : List String),
    pickVariant path vs tag m = .ok (v, c) → ∀ p ∈ c, p ∈ keysOf m
  | path, .cnil, tag, m, v, c => by
    intro h
    simp [pickVariant] at h
  | path, .ccons name node tl, tag, m, v, c => by
    intro h p hp
    rw [pickVariant] at h
    split at h
    case isTrue => exact assembleNode_consumed_subset node m v c h p hp
    case isFalse => exact pickVariant_consumed_subset path tl tag m v c h p hp
end

/-- When the completion branch is not taken and the front-end parse
succeeds, `cli()` runs the reconstruction tail on the (possibly
key-stripped) flat mapping. -/
theorem cliModel_main_branch (rules : List Rule) (t : TypeExpr) (prog : Option String)
    (description : Option String) (args : Option (List String)) (d : Option PyVal)
    (sysArgv : List String) (root : ParserNode) (m0 : FlatMap)
    (hroot : cliRoot rules t d = .ok root)
    (hnc : ¬(2 ≤ (resolveArgs args sysArgv).length ∧ (resolveArgs args sysArgv).headD "" = completionFlag))
    (hfe : frontend root.leaves (resolveArgs args sysArgv) = .ok m0) :
    cliModel rules t prog description args d sysArgv
      = cliAfterParse prog (cliWrap t d).2 root (cliMapOf t d m0) := by
  rw [cliModel, hroot]
  simp only [hnc, if_false, hfe]


theorem mem_leftover (m : FlatMap) (consumed : List String) (p : String)
    (hpk : p ∈ keysOf m) (hpc : p ∉ consumed) :
    (leftoverKeys m consumed).isEmpty = false := by
  have hmem : p ∈ leftoverKeys m consumed := by
    rw [leftoverKeys]
    refine List.mem_filter.mpr ⟨hpk, ?_⟩
    simp only [Bool.not_eq_true', ← Bool.not_eq_true]
    intro hc
    exact hpc (List.elem_iff.mp hc)
  cases h : (leftoverKeys m consumed).isEmpty with
  | false => rfl
  | true =>
    rw [List.isEmpty_iff] at h
    rw [h] at hmem
    simp at hmem

/-- C1.  For every successful top-level reconstruction performed by
`cli()`, the set of flat paths consumed by the reconstructor equals
the set of paths present in the flat value mapping produced by the
front-end parser; and any leftover path makes `cli()` fail its
consumption assertion (abort loudly) instead of returning. -/
theorem cli_total_consumption (rules : List Rule) (t : TypeExpr) (prog : Option String)
    (description : Option String) (args : Option (List String)) (d : Option PyVal)
    (sysArgv : List String) (root : ParserNode) (m0 : FlatMap) (out : PyVal)
    (consumed : List String)
    (hroot : cliRoot rules t d = .ok root)
    (hnc : ¬(2 ≤ (resolveArgs args sysArgv).length ∧ (resolveArgs args sysArgv).headD "" = completionFlag))
    (hfe : frontend root.leaves (resolveArgs args sysArgv) = .ok m0)
    (hasm : assembleNode root (cliMapOf t d m0) = .ok (out, consumed)) :
    (∀ v, cliModel rules t prog description args d sysArgv = .returned v →
       (∀ p, p ∈ consumed ↔ p ∈ keysOf (cliMapOf t d m0))) ∧
    ((∃ p ∈ keysOf (cliMapOf t d m0), p ∉ consumed) →
       cliModel rules t prog description args d sysArgv = .raisedAssertion consumptionAssertMsg) := by
  have hmain := cliModel_main_branch rules t prog description args d sysArgv root m0 hroot hnc hfe
  constructor
  · intro v hret p
    constructor
    · intro hp
      exact assembleNode_consumed_subset root _ out consumed hasm p hp
    · intro hp
      by_contra hpc
      rw [hmain] at hret
      simp only [cliAfterParse, hasm] at hret
      rw [mem_leftover (cliMapOf t d m0) consumed p hp hpc] at hret
      simp at hret
  · rintro ⟨p, hpk, hpc⟩
    rw [hmain]
    simp only [cliAfterParse, hasm]
    rw [mem_leftover (cliMapOf t d m0) consumed p hpk hpc]
    rfl

/-- Witness for C1 at a concrete target and input: one required
integer field, provided on the command line. -/
theorem cli_total_consumption_witness :
    (∀ v, cliModel [] (.tstruct (.fcons "x" .tint none .fnil)) none none (some ["--x", "5"]) none [] = .returned v →
       (∀ p, p ∈ ["x"] ↔ p ∈ keysOf (cliMapOf (.tstruct (.fcons "x" .tint none .fnil)) none [("x", some ["5"])]))) ∧
    ((∃ p ∈ keysOf (cliMapOf (.tstruct (.fcons "x" .tint none .fnil)) none [("x", some ["5"])]), p ∉ ["x"]) →
       cliModel [] (.tstruct (.fcons "x" .tint none .fnil)) none none (some ["--x", "5"]) none [] = .raisedAssertion consumptionAssertMsg) :=
  cli_total_consumption [] (.tstruct (.fcons "x" .tint none .fnil)) none none
    (some ["--x", "5"]) none []
    (.group "" (.ccons "x" (.leaf "x" true none intSpec false) .cnil))
    [("x", some ["5"])]
    (.pdict (.cons (.pstr "x") (.pint 5) .nil)) ["x"]
    rfl (by decide) rfl rfl


/-- The target of Scenario E and C2: one required integer field. -/
def requiredIntTarget : TypeExpr := .tstruct (.fcons "x" .tint none .fnil)

/-- The two-flag target of Scenario B (`src/examples/01_basics/05_flags.py`
lines 29–32, restricted to the two defaulted booleans the scenario
exercises). -/
def flagsTarget : TypeExpr :=
  .tstruct (.fcons "flag_a" .tbool (some (.pbool false))
    (.fcons "flag_b" .tbool (some (.pbool true)) .fnil))

/-- The user rule of the custom-primitive test (lines 21–29): matches
`Dict[str, Any]` and returns the JSON spec; all other shapes fall
through. -/
def jsonDictRule : Rule := fun t =>
  match t with
  | .tdictStrAny => some json_constructor_spec
  | _ => none

/-- The registry of the custom-primitive test (line 19) with the JSON
rule registered. -/
def jsonRegistry : ConstructorRegistry := ⟨[jsonDictRule]⟩

/-- The target of the custom-primitive test (lines 31–32): one field
of type `Dict[str, Any]`. -/
def mainTarget : TypeExpr := .tstruct (.fcons "x" .tdictStrAny none .fnil)

/-- C2 (divergence witness).  On a reconstruction failure `cli()`
prints the usage line, a blank line, and the specific error message —
but then raises a bare `SystemExit()`, whose exit status is 0, not
non-zero: `{x: int}` with no arguments. -/
theorem cli_reconstruction_error_exit_status :
    cliModel [] requiredIntTarget none none (some []) none []
      = .exited [usageLine none, "", errMessage (.missingRequiredArgument "x")] 0 := by
  decide

/-- C8.  Scenario B: a target with `flag_a: bool = False` and
`flag_b: bool = True` turns both booleans into flags; the input
`["--flag-a", "--no-flag-b"]` reconstructs to the instance with
`flag_a = True` and `flag_b = False`. -/
theorem cli_flags_scenario :
    cliModel [] flagsTarget none none (some ["--flag-a", "--no-flag-b"]) none []
      = .returned (.pdict (.cons (.pstr "flag_a") (.pbool true)
          (.cons (.pstr "flag_b") (.pbool false) .nil))) := by
  decide

/-- C5.  With the JSON rule active (registry scope entered), `cli` on
`main(x: Dict[str, Any])` parses the single raw token containing a
JSON object into the corresponding mapping; with no registration
active, the same target fails schema derivation with a
no-matching-rule error. -/
theorem cli_custom_primitive_registry :
    cliModel (activeRules (enterScope jsonRegistry [])) mainTarget none none
        (some ["--x", "\x7b\"a\": 1\x7d"]) none []
      = .returned (.pdict (.cons (.pstr "x")
          (.pdict (.cons (.pstr "a") (.pint 1) .nil)) .nil)) ∧
    cliModel (activeRules []) mainTarget none none
        (some ["--x", "\x7b\"a\": 1\x7d"]) none []
      = .raisedStructural (.noMatchingRule .tdictStrAny) := by
  constructor <;> decide

/-- C4.  Constructor rules registered in a scope apply only while the
scope is active: entering pushes the registry's rules in front of the
active ones, leaving (whatever the body did, error or not) restores
the previous state exactly, and a derivation run after scope exit is
the same derivation as if the registry had never been entered. -/
theorem constructor_registry_scoped (reg : ConstructorRegistry) (s : RegistryState)
    (body : RegistryState → CliOutcome) (t : TypeExpr) (prog description : Option String)
    (args : Option (List String)) (d : Option PyVal) (sysArgv : List String) :
    (withRegistry reg s body).2 = s ∧
    activeRules (enterScope reg s) = reg.rules ++ activeRules s ∧
    (withRegistry reg s body).1 = body (enterScope reg s) ∧
    cliModel (activeRules (withRegistry reg s body).2) t prog description args d sysArgv
      = cliModel (activeRules s) t prog description args d sysArgv := by
  refine ⟨rfl, ?_, rfl, rfl⟩
  simp [activeRules, enterScope]


/-- Inversion of a normal return of `cli()`: schema derivation,
front-end parsing and reconstruction all succeeded, and the returned
value is the reconstructed output, unwrapped when the target had been
synthetically wrapped. -/
theorem cliModel_returned_inv (rules : List Rule) (t : TypeExpr) (prog description : Option String)
    (l : List String) (d : Option PyVal) (sysArgv : List String) (v : PyVal)
    (h : cliModel rules t prog description (some l) d sysArgv = .returned v) :
    ∃ root m0 out consumed,
      cliRoot rules t d = .ok root ∧
      frontend root.leaves l = .ok m0 ∧
      assembleNode root (cliMapOf t d m0) = .ok (out, consumed) ∧
      ((¬(cliWrap t d).2 = true ∧ v = out) ∨
       ((cliWrap t d).2 = true ∧ out.attr dummyFieldName = some v)) := by
  cases hroot : cliRoot rules t d with
  | error e =>
    simp only [cliModel, hroot] at h
    exact CliOutcome.noConfusion h
  | ok root =>
    simp only [cliModel, hroot, resolveArgs] at h
    by_cases hc : 2 ≤ l.length ∧ l.headD "" = completionFlag
    · rw [if_pos hc] at h
      split at h <;> simp at h
    · rw [if_neg hc] at h
      cases hfe : frontend root.leaves l with
      | error e =>
        simp only [hfe] at h
        exact CliOutcome.noConfusion h
      | ok m0 =>
        simp only [hfe] at h
        refine ⟨root, m0, ?_⟩
        simp only [cliAfterParse] at h
        cases hasm : assembleNode root (cliMapOf t d m0) with
        | error e =>
          simp only [hasm] at h
          exact CliOutcome.noConfusion h
        | ok oc =>
          obtain ⟨out, consumed⟩ := oc
          simp only [hasm] at h
          refine ⟨out, consumed, rfl, hfe, rfl, ?_⟩
          split at h
          · split at h
            next hw =>
              split at h
              next v' hattr =>
                refine Or.inr ⟨hw, ?_⟩
                rw [hattr]
                simp only [CliOutcome.returned.injEq] at h
                rw [h]
              next hattr => exact CliOutcome.noConfusion h
            next hw =>
              simp only [CliOutcome.returned.injEq] at h
              exact Or.inl ⟨by simpa using hw, h.symm⟩
          · exact CliOutcome.noConfusion h

/-- C3.  `cli()` accepts a target plus optional program name,
description override, explicit argument sequence and default
instance; when the explicit argument sequence is supplied the process
argument list is never consulted (the outcome is the same for any
`sys.argv`), and a normal return delivers exactly the reconstructed
output of calling the target (unwrapped when the target had been
synthetically wrapped). -/
theorem cli_interface (rules : List Rule) (t : TypeExpr) (prog description : Option String)
    (l : List String) (d : Option PyVal) (sysArgv sysArgv' : List String) :
    cliModel rules t prog description (some l) d sysArgv
      = cliModel rules t prog description (some l) d sysArgv' ∧
    (∀ v, cliModel rules t prog description (some l) d sysArgv = .returned v →
      ∃ root m0 out consumed,
        cliRoot rules t d = .ok root ∧
        frontend root.leaves l = .ok m0 ∧
        assembleNode root (cliMapOf t d m0) = .ok (out, consumed) ∧
        ((¬(cliWrap t d).2 = true ∧ v = out) ∨
         ((cliWrap t d).2 = true ∧ out.attr dummyFieldName = some v))) :=
  ⟨rfl, fun v h => cliModel_returned_inv rules t prog description l d sysArgv v h⟩

/-- Witness for C3 at a concrete input: `{x: int}` with
`["--x", "5"]`, showing in particular that two different `sys.argv`
values give the same outcome. -/
theorem cli_interface_witness :
    cliModel [] requiredIntTarget none none (some ["--x", "5"]) none ["prog", "junk"]
      = cliModel [] requiredIntTarget none none (some ["--x", "5"]) none ["other"] ∧
    (∃ root m0 out consumed,
      cliRoot [] requiredIntTarget none = .ok root ∧
      frontend root.leaves ["--x", "5"] = .ok m0 ∧
      assembleNode root (cliMapOf requiredIntTarget none m0) = .ok (out, consumed) ∧
      ((¬(cliWrap requiredIntTarget none).2 = true ∧ (.pdict (.cons (.pstr "x") (.pint 5) .nil)) = out) ∨
       ((cliWrap requiredIntTarget none).2 = true ∧ out.attr dummyFieldName = some (.pdict (.cons (.pstr "x") (.pint 5) .nil))))) :=
  ⟨(cli_interface [] requiredIntTarget none none ["--x", "5"] none ["prog", "junk"] ["other"]).1,
   (cli_interface [] requiredIntTarget none none ["--x", "5"] none ["prog", "junk"] ["other"]).2
     (.pdict (.cons (.pstr "x") (.pint 5) .nil)) (by decide)⟩

/-- C10.  When the argument list has length at least two and starts
with `--dcargs-print-completion`, `cli()` never calls the target and
never returns normally: with schema derivation succeeding it prints a
completion script and raises `SystemExit` when the second element is
`bash`, `zsh` or `tcsh`, and fails the shell assertion for any other
second element. -/
theorem cli_print_completion (rules : List Rule) (t : TypeExpr) (prog description : Option String)
    (largs : List String) (d : Option PyVal) (sysArgv : List String)
    (h1 : 2 ≤ largs.length) (h2 : largs.headD "" = completionFlag) :
    (∀ v, cliModel rules t prog description (some largs) d sysArgv ≠ .returned v) ∧
    (∀ root, cliRoot rules t d = .ok root →
      ((largs.drop 1).headD "" = "bash" ∨ (largs.drop 1).headD "" = "zsh" ∨ (largs.drop 1).headD "" = "tcsh" →
        cliModel rules t prog description (some largs) d sysArgv
          = .exited [shtabComplete ((largs.drop 1).headD "") (prog.getD "")] 0) ∧
      (¬((largs.drop 1).headD "" = "bash" ∨ (largs.drop 1).headD "" = "zsh" ∨ (largs.drop 1).headD "" = "tcsh") →
        cliModel rules t prog description (some largs) d sysArgv
          = .raisedAssertion (shellAssertionMsg ((largs.drop 1).headD "")))) := by
  have hres : resolveArgs (some largs) sysArgv = largs := rfl
  constructor
  · intro v h
    cases hroot : cliRoot rules t d with
    | error e =>
      simp only [cliModel, hroot] at h
      exact CliOutcome.noConfusion h
    | ok root =>
      simp only [cliModel, hroot, hres] at h
      rw [if_pos ⟨h1, h2⟩] at h
      split at h <;> exact CliOutcome.noConfusion h
  · intro root hroot
    constructor <;> intro hs
    · simp only [cliModel, hroot, hres]
      rw [if_pos ⟨h1, h2⟩, if_pos hs]
    · simp only [cliModel, hroot, hres]
      rw [if_pos ⟨h1, h2⟩, if_neg hs]

/-- Witness for C10 at concrete inputs: the completion request for
`bash` exits after printing a script, and an unsupported shell trips
the assertion; neither returns. -/
theorem cli_print_completion_witness :
    (∀ v, cliModel [] requiredIntTarget none none (some ["--dcargs-print-completion", "bash"]) none []
        ≠ .returned v) ∧
    cliModel [] requiredIntTarget none none (some ["--dcargs-print-completion", "bash"]) none []
      = .exited [shtabComplete "bash" ""] 0 ∧
    cliModel [] requiredIntTarget none none (some ["--dcargs-print-completion", "sh"]) none []
      = .raisedAssertion (shellAssertionMsg "sh") :=
  ⟨(cli_print_completion [] requiredIntTarget none none ["--dcargs-print-completion", "bash"] none []
      (by decide) (by decide)).1,
   ((cli_print_completion [] requiredIntTarget none none ["--dcargs-print-completion", "bash"] none []
      (by decide) (by decide)).2 (.group "" (.ccons "x" (.leaf "x" true none intSpec false) .cnil)) rfl).1
      (by decide),
   ((cli_print_completion [] requiredIntTarget none none ["--dcargs-print-completion", "sh"] none []
      (by decide) (by decide)).2 (.group "" (.ccons "x" (.leaf "x" true none intSpec false) .cnil)) rfl).2
      (by decide)⟩


theorem intFromString_intChars (n : Int) :
    intFromString (String.mk (intChars n)) = some n := by
  by_cases hn : n < 0
  · have hform : intChars n = '-' :: natChars n.natAbs := by rw [intChars, if_pos hn]
    rw [hform]
    have hp := parseDigits_natChars n.natAbs [] rfl
    rw [List.append_nil] at hp
    rw [show intFromString (String.mk ('-' :: natChars n.natAbs))
        = (match parseDigits (natChars n.natAbs) with
           | some (m, []) => some (-(m : Int))
           | _ => none) from rfl]
    rw [hp]
    have hcast : (-(n.natAbs : Int)) = n := by omega
    simp only [hcast]
  · have hform : intChars n = natChars n.toNat := by rw [intChars, if_neg hn]
    obtain ⟨c, r, hc, hdig⟩ := natChars_head_digit n.toNat
    have hne : ¬ c = '-' := by rintro rfl; exact absurd hdig (by decide)
    rw [hform, hc]
    rw [show intFromString (String.mk (c :: r))
        = (if c = '-' then
             (match parseDigits r with
              | some (m, []) => some (-(m : Int))
              | _ => none)
           else
             (match parseDigits (c :: r) with
              | some (m, []) => some ((m : Int))
              | _ => none)) from rfl]
    rw [if_neg hne, ← hc]
    have hp := parseDigits_natChars n.toNat [] rfl
    rw [List.append_nil] at hp
    rw [hp]
    have hcast : ((n.toNat : Int)) = n := by omega
    simp only [hcast]

/-- C6 counterexample.  The round-trip claim fails, as stated, on the
repository's own `json_constructor_spec` at the accepted value
`{1: 2}` (an integer-keyed dict): the encoder coerces the key to the
string `"1"`, so decoding the produced token yields `{"1": 2}`, which
is not the original value. -/
theorem constructor_round_trip_counterexample :
    json_constructor_spec.is_instance (.pdict (.cons (.pint 1) (.pint 2) .nil)) = true ∧
    json_constructor_spec.str_from_instance (.pdict (.cons (.pint 1) (.pint 2) .nil))
      = some ["\x7b\"1\": 2\x7d"] ∧
    json_constructor_spec.instance_from_str ["\x7b\"1\": 2\x7d"]
      = some (.pdict (.cons (.pstr "1") (.pint 2) .nil)) ∧
    PyVal.pdict (.cons (.pstr "1") (.pint 2) .nil)
      ≠ PyVal.pdict (.cons (.pint 1) (.pint 2) .nil) := by
  refine ⟨by decide, by decide, by decide, by decide⟩

/-- C6 (amended).  For each constructor spec of this development,
`instance_from_tokens` inverts `tokens_from_instance` on every
accepted value for which the encoder succeeds — restricted, for the
JSON spec, to values whose dictionary keys are strings at every
nesting level (the restriction the counterexample forces). -/
theorem constructor_round_trip :
    (∀ (v : PyVal) (toks : List String),
        json_constructor_spec.is_instance v = true → v.strKeys = true →
        json_constructor_spec.str_from_instance v = some toks →
        json_constructor_spec.instance_from_str toks = some v) ∧
    (∀ (v : PyVal) (toks : List String),
        boolSpec.is_instance v = true →
        boolSpec.str_from_instance v = some toks →
        boolSpec.instance_from_str toks = some v) ∧
    (∀ (v : PyVal) (toks : List String),
        intSpec.is_instance v = true →
        intSpec.str_from_instance v = some toks →
        intSpec.instance_from_str toks = some v) ∧
    (∀ (v : PyVal) (toks : List String),
        strSpec.is_instance v = true →
        strSpec.str_from_instance v = some toks →
        strSpec.instance_from_str toks = some v) := by
  refine ⟨?_, ?_, ?_, ?_⟩
  · intro v toks _ hk henc
    simp only [json_constructor_spec, Option.map_eq_some'] at henc
    obtain ⟨s, hs, rfl⟩ := henc
    simp only [json_constructor_spec]
    exact json_loads_dumps v s hk hs
  · intro v toks hinst henc
    cases v <;> simp only [boolSpec] at hinst henc ⊢
    case pbool b =>
      cases b <;> simp only [Option.some.injEq] at henc <;> subst henc <;> rfl
    all_goals exact Bool.noConfusion hinst
  · intro v toks hinst henc
    cases v <;> simp only [intSpec] at hinst henc ⊢
    case pint n =>
      simp only [Option.some.injEq] at henc
      subst henc
      simp only [intFromString_intChars n, Option.map_some']
    all_goals exact Bool.noConfusion hinst
  · intro v toks hinst henc
    cases v <;> simp only [strSpec] at hinst henc ⊢
    case pstr s =>
      simp only [Option.some.injEq] at henc
      subst henc
      rfl
    all_goals exact Bool.noConfusion hinst

/-- Witness for the amended C6: the JSON spec round-trips the mapping
`{"a": 1}`, and the built-in int spec round-trips `-12`. -/
theorem constructor_round_trip_witness :
    json_constructor_spec.instance_from_str ["\x7b\"a\": 1\x7d"]
      = some (.pdict (.cons (.pstr "a") (.pint 1) .nil)) ∧
    intSpec.instance_from_str ["-12"] = some (.pint (-12)) :=
  ⟨constructor_round_trip.1 (.pdict (.cons (.pstr "a") (.pint 1) .nil)) ["\x7b\"a\": 1\x7d"]
      (by decide) (by decide) (by decide),
   constructor_round_trip.2.2.1 (.pint (-12)) ["-12"] (by decide) (by decide)⟩


theorem setKey_keys (m : FlatMap) (p : String) (v : List String) :
    keysOf (setKey m p v) = keysOf m := by
  rw [keysOf, setKey, List.map_map, keysOf]
  congr 1
  funext kv
  by_cases h : kv.1 = p <;> simp [h]

theorem frontendGo_keys : ∀ (fuel : Nat) (leaves : List LeafInfo) (m : FlatMap)
    (argv : List String) (m' : FlatMap),
    frontendGo fuel leaves m argv = .ok m' → keysOf m' = keysOf m := by
  intro fuel
  induction fuel with
  | zero =>
    intro leaves m argv m' h
    cases argv with
    | nil => simp only [frontendGo, Except.ok.injEq] at h; rw [h]
    | cons a l => simp [frontendGo] at h
  | succ fuel ih =>
    intro leaves m argv m' h
    cases argv with
    | nil => simp only [frontendGo, Except.ok.injEq] at h; rw [h]
    | cons tok rest =>
      rw [frontendGo] at h
      split at h
      case _ l v heq =>
        have := ih leaves (setKey m l.path v) rest m' h
        rw [this, setKey_keys]
      case _ l heq =>
        split at h
        case isTrue => exact absurd h (by simp)
        case isFalse =>
          have := ih leaves (setKey m l.path (rest.take l.nargs)) (rest.drop l.nargs) m' h
          rw [this, setKey_keys]
      case _ => exact absurd h (by simp)

theorem initMap_keys (leaves : List LeafInfo) :
    keysOf (initMap leaves) = leaves.map LeafInfo.path := by
  rw [keysOf, initMap, List.map_map]
  rfl

theorem stripMapKeys_keys (m : FlatMap) :
    keysOf (stripMapKeys m) = (keysOf m).map stripDummy := by
  rw [keysOf, stripMapKeys, List.map_map, keysOf, List.map_map]
  rfl

theorem stripDummy_dummy : stripDummy dummyFieldName = "" := by decide

/-- For a non-nested target, the derived tree is the synthetic
one-field group around a single leaf named by the synthetic field. -/
theorem cliRoot_prim (rules : List Rule) (t : TypeExpr) (d : Option PyVal) (root : ParserNode)
    (hn : isNestedType t = false) (hroot : cliRoot rules t d = .ok root) :
    ∃ req dflt spec fl,
      root = .group "" (.ccons dummyFieldName (.leaf dummyFieldName req dflt spec fl) .cnil) := by
  have hwrap : (cliWrap t d).1 = .tstruct (.fcons dummyFieldName t d .fnil) := by
    rw [cliWrap, hn]
    rfl
  rw [cliRoot, hwrap] at hroot
  cases t with
  | tstruct fs => simp [isNestedType] at hn
  | tbool =>
    cases hls : lookupSpec rules .tbool with
    | ok spec =>
      simp only [buildFields, buildType, joinPath, if_pos rfl, hls] at hroot
      simp only [Except.ok.injEq] at hroot
      exact ⟨_, _, _, _, hroot.symm⟩
    | error e =>
      simp only [buildFields, buildType, joinPath, if_pos rfl, hls] at hroot
      exact Except.noConfusion hroot
  | tint =>
    cases hls : lookupSpec rules .tint with
    | ok spec =>
      simp only [buildFields, buildType, joinPath, if_pos rfl, hls] at hroot
      simp only [Except.ok.injEq] at hroot
      exact ⟨_, _, _, _, hroot.symm⟩
    | error e =>
      simp only [buildFields, buildType, joinPath, if_pos rfl, hls] at hroot
      exact Except.noConfusion hroot
  | tstr =>
    cases hls : lookupSpec rules .tstr with
    | ok spec =>
      simp only [buildFields, buildType, joinPath, if_pos rfl, hls] at hroot
      simp only [Except.ok.injEq] at hroot
      exact ⟨_, _, _, _, hroot.symm⟩
    | error e =>
      simp only [buildFields, buildType, joinPath, if_pos rfl, hls] at hroot
      exact Except.noConfusion hroot
  | tdictStrAny =>
    cases hls : lookupSpec rules .tdictStrAny with
    | ok spec =>
      simp only [buildFields, buildType, joinPath, if_pos rfl, hls] at hroot
      simp only [Except.ok.injEq] at hroot
      exact ⟨_, _, _, _, hroot.symm⟩
    | error e =>
      simp only [buildFields, buildType, joinPath, if_pos rfl, hls] at hroot
      exact Except.noConfusion hroot


/-- C9.  A non-nested target is transparently wrapped in a synthetic
one-field dataclass: derivation sees the one-field struct, every key
in the mapping handed to the reconstructor has the synthetic field
name stripped (the only key becomes `""`), and a normal return
delivers the unwrapped inner value (the synthetic field's value), so
the wrapping is invisible at the public interface. -/
theorem cli_dummy_wrapping (rules : List Rule) (t : TypeExpr) (prog description : Option String)
    (largs : List String) (d : Option PyVal) (sysArgv : List String) (v : PyVal)
    (hn : isNestedType t = false)
    (hret : cliModel rules t prog description (some largs) d sysArgv = .returned v) :
    (cliWrap t d).1 = .tstruct (.fcons dummyFieldName t d .fnil) ∧
    (cliWrap t d).2 = true ∧
    ∃ root m0 out consumed,
      cliRoot rules t d = .ok root ∧
      frontend root.leaves largs = .ok m0 ∧
      keysOf (cliMapOf t d m0) = [""] ∧
      assembleNode root (cliMapOf t d m0) = .ok (out, consumed) ∧
      out.attr dummyFieldName = some v := by
  have hw1 : (cliWrap t d).1 = .tstruct (.fcons dummyFieldName t d .fnil) := by
    simp [cliWrap, hn]
  have hw2 : (cliWrap t d).2 = true := by
    simp [cliWrap, hn]
  refine ⟨hw1, hw2, ?_⟩
  obtain ⟨root, m0, out, consumed, hroot, hfe, hasm, hd⟩ :=
    cliModel_returned_inv rules t prog description largs d sysArgv v hret
  obtain ⟨req, dflt, spec, fl, rfl⟩ := cliRoot_prim rules t d root hn hroot
  refine ⟨_, m0, out, consumed, hroot, hfe, ?_, hasm, ?_⟩
  · have hk0 : keysOf m0 = [dummyFieldName] := by
      rw [frontend] at hfe
      rw [frontendGo_keys largs.length _ _ largs m0 hfe, initMap_keys]
      rfl
    simp only [cliMapOf, hw2, if_true, stripMapKeys_keys, hk0, List.map_cons, List.map_nil,
      stripDummy_dummy]
  · rcases hd with ⟨hnw, -⟩ | ⟨-, hattr⟩
    · exact absurd hw2 hnw
    · exact hattr

/-- Witness for C9 at a concrete input: `cli(int)` with the flag of
the synthetic field returns the bare integer. -/
theorem cli_dummy_wrapping_witness :
    (cliWrap .tint none).1 = .tstruct (.fcons dummyFieldName .tint none .fnil) ∧
    (cliWrap .tint none).2 = true ∧
    ∃ root m0 out consumed,
      cliRoot [] .tint none = .ok root ∧
      frontend root.leaves ["--dummy-field", "7"] = .ok m0 ∧
      keysOf (cliMapOf .tint none m0) = [""] ∧
      assembleNode root (cliMapOf .tint none m0) = .ok (out, consumed) ∧
      out.attr dummyFieldName = some (.pint 7) :=
  cli_dummy_wrapping [] .tint none none ["--dummy-field", "7"] none [] (.pint 7)
    (by decide) (by decide)

/-! ### Default-instance override (C7) -/


mutual
/-- Modelled from the spec: is `v` a complete instance for a type
position (a struct position demands a complete instance for its
fields)? -/
def valueFor : TypeExpr → PyVal → Bool
  | .tstruct fs, v => instanceFor fs v
  | _, _ => true

/-- Is `i` a complete default instance for a field list: it supplies
a value at every field, complete recursively at struct fields? -/
def instanceFor : FieldList → PyVal → Bool
  | .fnil, _ => true
  | .fcons name ty _ tl, i =>
    (match i.attr name with
     | some o => valueFor ty o
     | none => false) && instanceFor tl i
end

mutual
/-- The override a default instance performs on an already-built
subtree (spec §3 DefaultInstance): at every non-required leaf the
default becomes the instance's value at that field; required leaves
and everything else are untouched; groups recurse with the instance's
sub-value. -/
def overrideND : Option PyVal → ParserNode → ParserNode
  | ov, .leaf path req d spec fl => .leaf path req (if req then d else ov) spec fl
  | ov, .group path cs =>
    .group path
      (match ov with
       | some o => overrideCL o cs
       | none => cs)
  | _, .choice path dtag vs => .choice path dtag vs

def overrideCL : PyVal → ChildList → ChildList
  | _, .cnil => .cnil
  | i, .ccons name node tl => .ccons name (overrideND (i.attr name) node) (overrideCL i tl)
end

mutual
/-- The required/optional report of a tree: each leaf's path with its
required flag (a choice reports its discriminant as required exactly
when it has no default tag). -/
def ParserNode.reqs : ParserNode → List (String × Bool)
  | .leaf path req _ _ _ => [(path, req)]
  | .group _ cs => cs.reqs
  | .choice path dtag vs => (path, dtag.isNone) :: vs.reqs

def ChildList.reqs : ChildList → List (String × Bool)
  | .cnil => []
  | .ccons _ n tl => n.reqs ++ tl.reqs
end

mutual
theorem overrideND_reqs : ∀ (ov : Option PyVal) (n : ParserNode), (overrideND ov n).reqs = n.reqs
  | _, .leaf _ _ _ _ _ => rfl
  | ov, .group path cs => by
    cases ov with
    | some o => simp only [overrideND, ParserNode.reqs, overrideCL_reqs o cs]
    | none => rfl
  | _, .choice _ _ _ => rfl

theorem overrideCL_reqs : ∀ (i : PyVal) (cs : ChildList), (overrideCL i cs).reqs = cs.reqs
  | _, .cnil => rfl
  | i, .ccons name node tl => by
    simp only [overrideCL, ChildList.reqs, overrideND_reqs (i.attr name) node, overrideCL_reqs i tl]
end

mutual
theorem overrideND_leaves : ∀ (ov : Option PyVal) (n : ParserNode), (overrideND ov n).leaves = n.leaves
  | _, .leaf _ _ _ _ _ => rfl
  | ov, .group path cs => by
    cases ov with
    | some o => simp only [overrideND, ParserNode.leaves, overrideCL_leaves o cs]
    | none => rfl
  | _, .choice _ _ _ => rfl

theorem overrideCL_leaves : ∀ (i : PyVal) (cs : ChildList), (overrideCL i cs).leaves = cs.leaves
  | _, .cnil => rfl
  | i, .ccons name node tl => by
    simp only [overrideCL, ChildList.leaves, overrideND_leaves (i.attr name) node, overrideCL_leaves i tl]
end


mutual
theorem buildType_inst (rules : List Rule) : ∀ (ty : TypeExpr) (path : String)
    (fdef : Option PyVal) (o : PyVal) (ov0 : Option PyVal),
    valueFor ty o = true →
    buildType rules ty path fdef (some o)
      = Except.map (overrideND (some o)) (buildType rules ty path fdef ov0)
  | .tstruct fs, path, fdef, o, ov0 => by
    intro hval
    simp only [valueFor] at hval
    simp only [buildType]
    cases ov0 with
    | some x =>
      rw [buildFields_inst rules fs o (some x) path hval]
      generalize buildFields rules fs (some x) path = B
      cases B <;> simp [Except.map, overrideND]
    | none =>
      rw [buildFields_inst rules fs o fdef path hval]
      generalize buildFields rules fs fdef path = B
      cases B <;> simp [Except.map, overrideND]
  | .tbool, path, fdef, o, ov0 => by
    intro _
    cases hls : lookupSpec rules .tbool with
    | ok spec => cases fdef <;> cases ov0 <;> simp [buildType, hls, overrideND, Except.map]
    | error e => simp [buildType, hls, Except.map]
  | .tint, path, fdef, o, ov0 => by
    intro _
    cases hls : lookupSpec rules .tint with
    | ok spec => cases fdef <;> cases ov0 <;> simp [buildType, hls, overrideND, Except.map]
    | error e => simp [buildType, hls, Except.map]
  | .tstr, path, fdef, o, ov0 => by
    intro _
    cases hls : lookupSpec rules .tstr with
    | ok spec => cases fdef <;> cases ov0 <;> simp [buildType, hls, overrideND, Except.map]
    | error e => simp [buildType, hls, Except.map]
  | .tdictStrAny, path, fdef, o, ov0 => by
    intro _
    cases hls : lookupSpec rules .tdictStrAny with
    | ok spec => cases fdef <;> cases ov0 <;> simp [buildType, hls, overrideND, Except.map]
    | error e => simp [buildType, hls, Except.map]

theorem buildFields_inst (rules : List Rule) : ∀ (fs : FieldList) (o : PyVal)
    (inst0 : Option PyVal) (pre : String),
    instanceFor fs o = true →
    buildFields rules fs (some o) pre
      = Except.map (overrideCL o) (buildFields rules fs inst0 pre)
  | .fnil, o, inst0, pre => by
    intro _
    simp [buildFields, Except.map, overrideCL]
  | .fcons name ty fdef tl, o, inst0, pre => by
    intro hinst
    simp only [instanceFor, Bool.and_eq_true] at hinst
    obtain ⟨hattr, htl⟩ := hinst
    cases hao : o.attr name with
    | none => rw [hao] at hattr; exact Bool.noConfusion hattr
    | some o' =>
      rw [hao] at hattr
      cases inst0 with
      | some i0 =>
        have hty := buildType_inst rules ty (joinPath pre name) fdef o' (i0.attr name) hattr
        have hrest := buildFields_inst rules tl o (some i0) pre htl
        simp only [buildFields, hao]
        rw [hty, hrest]
        generalize buildType rules ty (joinPath pre name) fdef (i0.attr name) = B1
        generalize buildFields rules tl (some i0) pre = B2
        cases B1 <;> cases B2 <;> simp [Except.map, overrideCL, hao]
      | none =>
        have hty := buildType_inst rules ty (joinPath pre name) fdef o' none hattr
        have hrest := buildFields_inst rules tl o none pre htl
        simp only [buildFields, hao]
        rw [hty, hrest]
        generalize buildType rules ty (joinPath pre name) fdef none = B1
        generalize buildFields rules tl none pre = B2
        cases B1 <;> cases B2 <;> simp [Except.map, overrideCL, hao]
end

/-- The fields of the two-flag example target. -/
def flagsFields : FieldList :=
  .fcons "flag_a" .tbool (some (.pbool false))
    (.fcons "flag_b" .tbool (some (.pbool true)) .fnil)

/-- A complete instance of the two-flag target, with both defaults
inverted. -/
def flagsInstance : PyVal :=
  .pdict (.cons (.pstr "flag_a") (.pbool true)
    (.cons (.pstr "flag_b") (.pbool false) .nil))

/-- C7.  Supplying a complete default instance to `cli()` makes the
derived schema the override image of the schema derived without it
(every non-required leaf's default becomes the instance's value at
its path, recursively through nested groups), and the override leaves
untouched both the required/optional report and the leaf surface
(paths, arities, flags) shown to the user. -/
theorem cli_default_instance_override (rules : List Rule) (fs : FieldList) (i : PyVal)
    (inst0 : Option PyVal) (pre : String) (hinst : instanceFor fs i = true) :
    buildFields rules fs (some i) pre
      = Except.map (overrideCL i) (buildFields rules fs inst0 pre) ∧
    cliRoot rules (.tstruct fs) (some i)
      = Except.map (overrideND (some i)) (cliRoot rules (.tstruct fs) none) ∧
    (∀ cl : ChildList, (overrideCL i cl).reqs = cl.reqs) ∧
    (∀ cl : ChildList, (overrideCL i cl).leaves = cl.leaves) := by
  refine ⟨buildFields_inst rules fs i inst0 pre hinst, ?_,
    fun cl => overrideCL_reqs i cl, fun cl => overrideCL_leaves i cl⟩
  simp only [cliRoot, cliWrap, isNestedType, if_true, ite_true]
  rw [buildFields_inst rules fs i none "" hinst]
  generalize buildFields rules fs none "" = B
  cases B <;> simp [Except.map, overrideND]

/-- Witness for C7: the two-flag target with a complete instance that
inverts both defaults; the derived tree is the override image and the
required/optional report of a sample subtree is unchanged. -/
theorem cli_default_instance_override_witness :
    buildFields [] flagsFields (some flagsInstance) ""
      = Except.map (overrideCL flagsInstance) (buildFields [] flagsFields none "") ∧
    (overrideCL flagsInstance
        (.ccons "flag_a" (.leaf "flag_a" false (some (.pbool false)) boolSpec true) .cnil)).reqs
      = (ChildList.ccons "flag_a" (.leaf "flag_a" false (some (.pbool false)) boolSpec true) .cnil).reqs :=
  ⟨(cli_default_instance_override [] flagsFields flagsInstance none "" (by decide)).1,
   (cli_default_instance_override [] flagsFields flagsInstance none "" (by decide)).2.2.1
     (.ccons "flag_a" (.leaf "flag_a" false (some (.pbool false)) boolSpec true) .cnil)⟩

end Dcargs
